import Mathlib

/-!
# arper: ARP network scanner

A shallow embedding of `utils.go`, `types.go` and `main.go` of the arper scanner, followed by
theorems about address enumeration (`ips`), snapshot deduplication (`deduplicateNetwork`),
vendor loading and resolution (`readVendors`, the lookup inside `readARP`), probe construction
(`writeARP`) and the scan loop (`scan`).

Conventions of the embedding:

* a Go `byte` is a `Fin 256`; a `uint32` is a `Nat` and every operation that can overflow is
  followed by an explicit `% 2 ^ 32`;
* a 4-byte slice (`ip4`, `Mask[len-4:]`, `buf[:]`) is an `IP4`; other byte slices are lists;
* a Go function that can return an error or stop with a run-time panic returns
  `Except Failure _`;
* loops whose trip count is bounded are total functions (well-founded recursion); the endless
  `for` of `scan` takes the number of cycles to run.
-/

namespace Arper

/-! ## Bytes and 32-bit words (`encoding/binary`) -/

/-- A Go `byte`. -/
abbrev Byte := Fin 256

/-- Conversion `byte(v)` of an unsigned integer: the low eight bits. -/
def toByte (v : Nat) : Byte := ⟨v % 256, Nat.mod_lt _ (by decide)⟩

/-- A byte slice of length four: an IPv4 address or an IPv4 mask. -/
structure IP4 where
  b0 : Byte
  b1 : Byte
  b2 : Byte
  b3 : Byte
  deriving DecidableEq, Repr

/-- The bytes of a four-byte slice, in order (`[]byte(ip)`). -/
def IP4.bytes (a : IP4) : List Byte := [a.b0, a.b1, a.b2, a.b3]

/-- Go `binary.BigEndian.Uint32(b)`:
`uint32(b[3]) | uint32(b[2])<<8 | uint32(b[1])<<16 | uint32(b[0])<<24`. -/
def bigEndianUint32 (b : IP4) : Nat :=
  b.b3.val ||| b.b2.val <<< 8 ||| b.b1.val <<< 16 ||| b.b0.val <<< 24

/-- Go `binary.BigEndian.PutUint32(buf[:], v)`:
`b[0] = byte(v >> 24); b[1] = byte(v >> 16); b[2] = byte(v >> 8); b[3] = byte(v)`. -/
def putUint32 (v : Nat) : IP4 :=
  { b0 := toByte (v >>> 24), b1 := toByte (v >>> 16), b2 := toByte (v >>> 8), b3 := toByte v }

/-- Go `net.IPNet` as `scan` builds it: `IP` is `ip4` and `Mask` the last four mask bytes. -/
structure IPNet where
  IP : IP4
  Mask : IP4
  deriving DecidableEq, Repr

/-! ## `utils.go`: `ips` -/

/-- The `for mask < 0xffffffff` loop of `ips`: append the current `num`, then `mask++`, `num++`
(both `uint32`). The loop ends because `mask` strictly grows towards `0xffffffff`. -/
def ipsLoop (num mask : Nat) (out : List IP4) : List IP4 :=
  if mask < 0xffffffff then
    ipsLoop ((num + 1) % 2 ^ 32) ((mask + 1) % 2 ^ 32) (out ++ [putUint32 num])
  else out
termination_by 0xffffffff - mask
decreasing_by omega

/-- Go `ips(n *net.IPNet) (out []net.IP)`. -/
def ips (n : IPNet) : List IP4 :=
  let num := bigEndianUint32 n.IP
  let mask := bigEndianUint32 n.Mask
  let num := num &&& mask
  ipsLoop num mask []

/-! ## Failures -/

/-- How a Go call can fail: it returns a non-nil `error`, or it stops with a run-time panic
(index or slice bound out of range). -/
inductive Failure where
  | error (msg : String)
  | runtimePanic (msg : String)
  deriving DecidableEq, Repr

/-- Indexing `xs[i]` of a Go slice: a run-time panic when `i` is out of range. -/
def index {α : Type} (xs : List α) (i : Nat) : Except Failure α :=
  match xs.get? i with
  | some x => .ok x
  | none => .error (.runtimePanic "index out of range")

/-! ## `types.go` -/

/-- Go `Address`. -/
structure Address where
  IP : String
  MAC : String
  Vendor : String
  deriving DecidableEq, Repr

/-- Go `Network`; `Time` is an abstract time stamp. -/
structure Network where
  Time : Nat
  Addresses : List Address
  deriving DecidableEq, Repr

/-- Go `VendorRecord`. -/
structure VendorRecord where
  MACPrefix : String
  Vendor : String
  deriving DecidableEq, Repr

/-! ## Library functions on strings (`strings`, `unicode`, `strconv`, `net`)

Go strings are byte sequences; here they are sequences of characters. The functions below are
the ones the program calls, with the behaviour the Go standard library documents. -/

/-- Go `unicode.IsSpace`. -/
def isSpace (c : Char) : Bool :=
  c = '\t' || c = '\n' || c.toNat = 0x0B || c.toNat = 0x0C || c = '\r' || c = ' ' ||
  c.toNat = 0x85 || c.toNat = 0xA0 || c.toNat = 0x1680 ||
  (0x2000 ≤ c.toNat && c.toNat ≤ 0x200A) || c.toNat = 0x2028 || c.toNat = 0x2029 ||
  c.toNat = 0x202F || c.toNat = 0x205F || c.toNat = 0x3000

/-- Go `strings.TrimSpace`: drop leading and trailing white space. -/
def trimSpace (s : String) : String :=
  ⟨((s.data.dropWhile isSpace).reverse.dropWhile isSpace).reverse⟩

/-- Go `strings.SplitN(s, " ", 2)`: cut at the first space, if there is one. -/
def splitN2 (s : String) : List String :=
  match s.data.span (fun c => c != ' ') with
  | (a, []) => [⟨a⟩]
  | (a, _ :: b) => [⟨a⟩, ⟨b⟩]

/-- Splitting a character sequence at every occurrence of `sep`. -/
def splitChars (sep : Char) : List Char → List (List Char)
  | [] => [[]]
  | c :: cs =>
    if c = sep then [] :: splitChars sep cs
    else
      match splitChars sep cs with
      | [] => [[c]]
      | p :: ps => (c :: p) :: ps

/-- Go `strings.Split(s, ":")`. -/
def splitColon (s : String) : List String :=
  (splitChars ':' s.data).map String.mk

/-- Go `strings.ToUpper`, on the ASCII strings the program applies it to. -/
def toUpper (s : String) : String := ⟨s.data.map Char.toUpper⟩

/-- The digit value `strconv.ParseUint` gives a character: `c - '0'` for `'0'..'9'`,
`lower(c) - 'a' + 10` when `'a' <= lower(c) <= 'z'` with `lower(c) = c | 0x20`, none otherwise
(every byte of a non-ASCII character falls in the last case). -/
def digitVal (c : Char) : Option Nat :=
  if 48 ≤ c.toNat ∧ c.toNat ≤ 57 then some (c.toNat - 48)
  else if 97 ≤ (c.toNat ||| 0x20) ∧ (c.toNat ||| 0x20) ≤ 122 then some ((c.toNat ||| 0x20) - 97 + 10)
  else none

/-- The digit loop of `strconv.ParseUint(s, 16, 64)`: `cutoff = maxUint64/16 + 1`,
`maxVal = 1<<64 - 1`; a bad digit gives `(0, syntax error)`, an overflow
`(maxVal, range error)`. -/
def parseUintLoop : List Char → Nat → Nat × Option String
  | [], n => (n, none)
  | c :: cs, n =>
    match digitVal c with
    | none => (0, some "invalid syntax")
    | some d =>
      if d ≥ 16 then (0, some "invalid syntax")
      else if n ≥ (2 ^ 64 - 1) / 16 + 1 then (2 ^ 64 - 1, some "value out of range")
      else
        let n := (n * 16) % 2 ^ 64
        let n1 := (n + d) % 2 ^ 64
        if n1 < n ∨ n1 > 2 ^ 64 - 1 then (2 ^ 64 - 1, some "value out of range")
        else parseUintLoop cs n1

/-- Go `strconv.ParseUint(s, 16, 64)`: the value and the error, if any. -/
def parseUint (s : String) : Nat × Option String :=
  if s.data = [] then (0, some "invalid syntax") else parseUintLoop s.data 0

/-- Go `hexDigit[i]` of package `net`, with `hexDigit = "0123456789abcdef"`. -/
def hexDigit (i : Nat) : Char :=
  ['0', '1', '2', '3', '4', '5', '6', '7', '8', '9', 'a', 'b', 'c', 'd', 'e', 'f'].getD i '0'

/-- The loop of Go `net.HardwareAddr.String`: a colon before every byte but the first, then
`hexDigit[b>>4]`, `hexDigit[b&0xF]`. -/
def hardwareAddrLoop : Nat → List Byte → List Char
  | _, [] => []
  | i, b :: rest =>
    (if i > 0 then [':'] else []) ++ [hexDigit (b.val >>> 4), hexDigit (b.val &&& 0xF)] ++
      hardwareAddrLoop (i + 1) rest

/-- Go `net.HardwareAddr(a).String()`. -/
def hardwareAddrString (a : List Byte) : String := ⟨hardwareAddrLoop 0 a⟩

/-! ## `sort.Search` -/

/-- The loop of Go `sort.Search`: `h := int(uint(i+j) >> 1)`; `if !f(h) { i = h + 1 } else
{ j = h }`. The predicate may panic (it indexes a slice). -/
def searchLoop (f : Nat → Except Failure Bool) (i j : Nat) : Except Failure Nat :=
  if i < j then
    match f ((i + j) >>> 1) with
    | .error e => .error e
    | .ok b => if !b then searchLoop f ((i + j) >>> 1 + 1) j else searchLoop f i ((i + j) >>> 1)
  else .ok i
termination_by j - i
decreasing_by
  all_goals simp_wf
  all_goals rw [Nat.shiftRight_eq_div_pow]
  all_goals omega

/-- Go `sort.Search(n, f)`. -/
def sortSearch (n : Nat) (f : Nat → Except Failure Bool) : Except Failure Nat :=
  searchLoop f 0 n

/-! ## `utils.go`: `readVendors` -/

/-- The body of the `ReadLine` loop of `readVendors`, over the lines still to be read. -/
def readVendorsLoop : List String → List VendorRecord → Except Failure (List VendorRecord)
  | [], vendors => .ok vendors
  | line :: rest, vendors =>
    let splitted := splitN2 line
    match index splitted 0, index splitted 1 with
    | .ok s0, .ok s1 =>
      readVendorsLoop rest (vendors ++ [{ MACPrefix := trimSpace s0, Vendor := trimSpace s1 }])
    | .error e, _ => .error e
    | _, .error e => .error e

/-- Go `readVendors(file)`. `fs file` is the outcome of `os.Open(file)`: an error, or the lines
that the successive `reader.ReadLine()` calls return until the first read error (end of file).
-/
def readVendors (fs : String → Except String (List String)) (file : String) :
    Except Failure (List VendorRecord) :=
  match fs file with
  | .error err => .error (.error err)
  | .ok lines => readVendorsLoop lines []

/-! ## `utils.go`: `deduplicateNetwork` -/

/-- A Go `map[string]Address`: its entries, no key twice. -/
abbrev AddressMap := List (String × Address)

/-- Go `v, ok := m[k]`. -/
def mapLookup (m : AddressMap) (k : String) : Option Address :=
  match m with
  | [] => none
  | (k', v) :: rest => if k' = k then some v else mapLookup rest k

/-- Go `m[k] = v`. -/
def mapStore (m : AddressMap) (k : String) (v : Address) : AddressMap :=
  match m with
  | [] => [(k, v)]
  | (k', v') :: rest => if k' = k then (k, v) :: rest else (k', v') :: mapStore rest k v

/-- The first loop of `deduplicateNetwork`: store an address unless its IP is already a key. -/
def dedupLoop : List Address → AddressMap → AddressMap
  | [], lookup => lookup
  | addr :: rest, lookup =>
    match mapLookup lookup addr.IP with
    | none => dedupLoop rest (mapStore lookup addr.IP addr)
    | some _ => dedupLoop rest lookup

/-- Go `deduplicateNetwork(network)`. Go leaves the order of `range` over a map unspecified:
`order` is the order in which the run time walks the entries. -/
def deduplicateNetwork (order : AddressMap → AddressMap) (network : Network) : Network :=
  let lookup := dedupLoop network.Addresses []
  let addresses := (order lookup).foldl (fun addresses e => addresses ++ [e.2]) []
  { network with Addresses := addresses }

/-! ## `main.go`: vendor resolution in `readARP` -/

/-- The numeric value the search predicate of `readARP` reads from a vendor record:
`number, _ := strconv.ParseUint(vendors[i].MACPrefix, 16, 64)`, the error ignored. -/
def prefixNumber (v : VendorRecord) : Nat := (parseUint v.MACPrefix).1

/-- Lines `splitted := strings.Split(mac, ":")` and
`macPrefix := strings.ToUpper(splitted[0] + splitted[1] + splitted[2])` of `readARP`. -/
def macPrefixOf (mac : String) : Except Failure String :=
  let splitted := splitColon mac
  match index splitted 0, index splitted 1, index splitted 2 with
  | .ok s0, .ok s1, .ok s2 => .ok (toUpper (s0 ++ s1 ++ s2))
  | .error e, _, _ => .error e
  | _, .error e, _ => .error e
  | _, _, .error e => .error e

/-- The predicate `readARP` hands to `sort.Search`:
`number, _ := strconv.ParseUint(vendors[i].MACPrefix, 16, 64); return number >= macNumber`. -/
def searchPred (vendors : List VendorRecord) (macNumber : Nat) (i : Nat) : Except Failure Bool :=
  match index vendors i with
  | .ok v => .ok (decide (prefixNumber v ≥ macNumber))
  | .error e => .error e

/-- Lines `idx := len(vendors)` to `vendor = vendors[idx].Vendor` of `readARP`: the vendor name
for an upper-case prefix string. -/
def lookupVendor (vendors : List VendorRecord) (macPrefix : String) : Except Failure String :=
  let idx : Except Failure Nat :=
    match parseUint macPrefix with
    | (macNumber, none) => sortSearch vendors.length (searchPred vendors macNumber)
    | (_, some _) => .ok vendors.length
  match idx with
  | .error e => .error e
  | .ok idx =>
    if idx < vendors.length then
      match index vendors idx with
      | .ok v => .ok v.Vendor
      | .error e => .error e
    else .ok ""

/-- Vendor resolution of `readARP` for the sender hardware address of an ARP layer: the text
of the address, its first three colon-separated octets, the table lookup. -/
def resolveVendor (vendors : List VendorRecord) (sourceHwAddress : List Byte) :
    Except Failure String :=
  match macPrefixOf (hardwareAddrString sourceHwAddress) with
  | .ok macPrefix => lookupVendor vendors macPrefix
  | .error e => .error e

/-! ## `main.go`: layers and `writeARP` -/

/-- Go `layers.Ethernet`, the fields `writeARP` sets. -/
structure Ethernet where
  SrcMAC : List Byte
  DstMAC : List Byte
  EthernetType : Nat
  deriving DecidableEq, Repr

/-- Go `layers.ARP`. -/
structure ARP where
  AddrType : Nat
  Protocol : Nat
  HwAddressSize : Nat
  ProtAddressSize : Nat
  Operation : Nat
  SourceHwAddress : List Byte
  SourceProtAddress : List Byte
  DstHwAddress : List Byte
  DstProtAddress : List Byte
  deriving DecidableEq, Repr

/-- Go `layers.EthernetTypeARP`. -/
def EthernetTypeARP : Nat := 0x0806

/-- Go `layers.EthernetTypeIPv4`. -/
def EthernetTypeIPv4 : Nat := 0x0800

/-- Go `layers.LinkTypeEthernet`. -/
def LinkTypeEthernet : Nat := 1

/-- Go `layers.ARPRequest`. -/
def ARPRequest : Nat := 1

/-- Go `layers.ARPReply`. -/
def ARPReply : Nat := 2

/-- A probe frame: the Ethernet and ARP layers that `writeARP` hands to
`gopacket.SerializeLayers`, whose bytes it then hands to `handle.WritePacketData`. -/
structure Frame where
  eth : Ethernet
  arp : ARP
  deriving DecidableEq, Repr

/-- One element of `iface.Addrs()`: a `*net.IPNet` with its address and mask bytes, or a value
of another type. -/
inductive IfAddr where
  | ipNet (ip : List Byte) (mask : List Byte)
  | other
  deriving DecidableEq, Repr

/-- Go `net.Interface`, with the outcome of its `Addrs()` call. -/
structure Interface where
  Name : String
  HardwareAddr : List Byte
  Addrs : Except String (List IfAddr)

/-- What the program does to the outside world, in order. -/
inductive Event where
  | openLive (name : String)
  | goReadARP
  | writePacketData (frame : Frame)
  | sleep (seconds : Int)
  | deduplicate
  | appendHistory (network : Network)
  | exec (uuid : String) (time : Nat) (ip mac vendor : String)
  | closeStop
  | closeHandle
  deriving DecidableEq, Repr

/-- The surroundings of a run. Every answer may depend on all that happened before. -/
structure World where
  /-- The error of `pcap.OpenLive`, if any. -/
  openLive : List Event → String → Option String
  /-- The error of `handle.WritePacketData`, if any. -/
  writePacketData : List Event → Frame → Option String
  /-- Go `time.Now()`. -/
  now : List Event → Nat
  /-- The packets `readARP` takes from the handle during the current cycle, each with its ARP
  layer if it has one. -/
  received : List Event → List (Option ARP)
  /-- Go `net.IP(b).String()`. -/
  ipString : List Byte → String
  /-- The order of `range` over a map. -/
  mapOrder : AddressMap → AddressMap
  /-- Go `uuid.NewV4()`. -/
  newUUID : List Event → Except String String
  /-- The error of `conn.Exec`, if any. -/
  exec : List Event → Option String

/-- The package variables of `main.go` that change during a scan, and the trace of events. -/
structure State where
  current : Network
  history : List Network
  trace : List Event

/-- The package variables of `main.go` fixed before `scan` starts. -/
structure Config where
  seconds : Int
  vendors : List VendorRecord

/-- The `for _, ip := range ips(addr)` loop of `writeARP`: set `arp.DstProtAddress`, serialize,
write; the first write error is returned at once. -/
def writeARPLoop (w : World) (eth : Ethernet) (arp : ARP) :
    List IP4 → List Event → List Event × Option String
  | [], trace => (trace, none)
  | ip :: rest, trace =>
    let arp := { arp with DstProtAddress := ip.bytes }
    let frame : Frame := { eth := eth, arp := arp }
    match w.writePacketData trace frame with
    | some err => (trace ++ [.writePacketData frame], some err)
    | none => writeARPLoop w eth arp rest (trace ++ [.writePacketData frame])

/-- The Ethernet layer `writeARP` sets up before its loop. -/
def ethLayer (iface : Interface) : Ethernet :=
  { SrcMAC := iface.HardwareAddr
    DstMAC := [0xff, 0xff, 0xff, 0xff, 0xff, 0xff]
    EthernetType := EthernetTypeARP }

/-- The ARP layer `writeARP` sets up before its loop; `DstProtAddress` is not set yet. -/
def arpLayer (iface : Interface) (addr : IPNet) : ARP :=
  { AddrType := LinkTypeEthernet
    Protocol := EthernetTypeIPv4
    HwAddressSize := 6
    ProtAddressSize := 4
    Operation := ARPRequest
    SourceHwAddress := iface.HardwareAddr
    SourceProtAddress := addr.IP.bytes
    DstHwAddress := [0, 0, 0, 0, 0, 0]
    DstProtAddress := [] }

/-- Go `writeARP(handle, iface, addr)`: the trace after it and the error it returns, if any. -/
def writeARP (w : World) (iface : Interface) (addr : IPNet) (trace : List Event) :
    List Event × Option String :=
  let eth := ethLayer iface
  let arp := arpLayer iface addr
  writeARPLoop w eth arp (ips addr) trace

/-! ## `main.go`: `readARP` -/

/-- The body of the `case packet = <-in` branch of `readARP` for one packet: skip it when it
has no ARP layer, else append the sender to `current.Addresses`. -/
def readARPPacket (w : World) (vendors : List VendorRecord) (packet : Option ARP)
    (current : Network) : Except Failure Network :=
  match packet with
  | none => .ok current
  | some arp =>
    let ip := w.ipString arp.SourceProtAddress
    let mac := hardwareAddrString arp.SourceHwAddress
    match resolveVendor vendors arp.SourceHwAddress with
    | .error e => .error e
    | .ok vendor =>
      .ok { current with Addresses := current.Addresses ++ [{ IP := ip, MAC := mac, Vendor := vendor }] }

/-- The packets of one cycle, handled one after the other. -/
def readARPPackets (w : World) (vendors : List VendorRecord) :
    List (Option ARP) → Network → Except Failure Network
  | [], current => .ok current
  | packet :: rest, current =>
    match readARPPacket w vendors packet current with
    | .error e => .error e
    | .ok current => readARPPackets w vendors rest current

/-! ## `main.go`: `scan` -/

/-- Go `net.IP.To4`: a 4-byte address as it is, a 16-byte IPv4-mapped address cut to its last
four bytes, nothing otherwise. -/
def to4 (ip : List Byte) : Option IP4 :=
  match ip with
  | [a, b, c, d] => some ⟨a, b, c, d⟩
  | [z0, z1, z2, z3, z4, z5, z6, z7, z8, z9, f0, f1, a, b, c, d] =>
    if z0 = 0 ∧ z1 = 0 ∧ z2 = 0 ∧ z3 = 0 ∧ z4 = 0 ∧ z5 = 0 ∧ z6 = 0 ∧ z7 = 0 ∧ z8 = 0 ∧ z9 = 0 ∧
        f0 = 0xff ∧ f1 = 0xff then some ⟨a, b, c, d⟩
    else none
  | _ => none

/-- The slice `ipnet.Mask[len(ipnet.Mask)-4:]`: a run-time panic when the mask has fewer than
four bytes. -/
def lastFour (mask : List Byte) : Except Failure IP4 :=
  if mask.length < 4 then .error (.runtimePanic "slice bounds out of range")
  else
    match mask.drop (mask.length - 4) with
    | [a, b, c, d] => .ok ⟨a, b, c, d⟩
    | _ => .error (.runtimePanic "slice bounds out of range")

/-- The `for _, a := range addrs` loop of `scan`: the first address that is a `*net.IPNet`
with an IPv4 address. -/
def findAddr : List IfAddr → Except Failure (Option IPNet)
  | [] => .ok none
  | .other :: rest => findAddr rest
  | .ipNet ip mask :: rest =>
    match to4 ip with
    | none => findAddr rest
    | some ip4 =>
      match lastFour mask with
      | .error e => .error e
      | .ok m => .ok (some { IP := ip4, Mask := m })

/-- The `for _, addr := range current.Addresses` loop at the end of a cycle: a UUID and one
`INSERT` for each address; the first error is returned. -/
def persistLoop (w : World) (time : Nat) : List Address → List Event → List Event × Option String
  | [], trace => (trace, none)
  | addr :: rest, trace =>
    match w.newUUID trace with
    | .error err => (trace, some err)
    | .ok uuid =>
      let trace' := trace ++ [.exec uuid time addr.IP addr.MAC addr.Vendor]
      match w.exec trace' with
      | some err => (trace', some err)
      | none => persistLoop w time rest trace'

/-- One turn of the endless `for` of `scan`. The concurrent `readARP` is placed in sequence:
the packets of the cycle are handled after the probes are written and the sleep is over,
before deduplication. The result is the state after the turn and the failure that ends `scan`,
if any. Console output is left out. -/
def scanCycle (w : World) (cfg : Config) (iface : Interface) (addr : IPNet) (s : State) :
    State × Option Failure :=
  let s : State := { s with current := { Addresses := [], Time := w.now s.trace } }
  match writeARP w iface addr s.trace with
  | (trace, some err) => ({ s with trace := trace }, some (.error err))
  | (trace, none) =>
    let s : State := { s with trace := trace ++ [.sleep cfg.seconds] }
    match readARPPackets w cfg.vendors (w.received s.trace) s.current with
    | .error e => (s, some e)
    | .ok current =>
      let s : State := { s with current := current }
      let s : State :=
        { s with current := deduplicateNetwork w.mapOrder s.current
                 trace := s.trace ++ [.deduplicate] }
      let s : State :=
        { s with history := s.history ++ [s.current]
                 trace := s.trace ++ [.appendHistory s.current] }
      match persistLoop w s.current.Time s.current.Addresses s.trace with
      | (trace, some err) => ({ s with trace := trace }, some (.error err))
      | (trace, none) => ({ s with trace := trace }, none)

/-- The endless `for` of `scan`, run for at most `cycles` turns: `none` as failure means the
loop is still running after that many turns. -/
def scanLoop (w : World) (cfg : Config) (iface : Interface) (addr : IPNet) :
    Nat → State → State × Option Failure
  | 0, s => (s, none)
  | cycles + 1, s =>
    match scanCycle w cfg iface addr s with
    | (s, some e) => (s, some e)
    | (s, none) => scanLoop w cfg iface addr cycles s

/-- Go `scan(iface)`, observed for at most `cycles` turns of its loop: the state it leaves and
the failure it ends with (`none`: still running). The deferred `close(stop)` and
`handle.Close()` run when `scan` returns an error after the handle was opened. -/
def scan (w : World) (cfg : Config) (iface : Interface) (cycles : Nat) (s : State) :
    State × Option Failure :=
  match iface.Addrs with
  | .error err => (s, some (.error err))
  | .ok addrs =>
    match findAddr addrs with
    | .error e => (s, some e)
    | .ok none => (s, some (.error "no good IP network found"))
    | .ok (some addr) =>
      if addr.IP.b0 = 127 then (s, some (.error "skipping localhost"))
      else if addr.Mask.b0 ≠ 0xff ∨ addr.Mask.b1 ≠ 0xff then
        (s, some (.error "mask means network is too large"))
      else
        let s : State := { s with trace := s.trace ++ [.openLive iface.Name] }
        match w.openLive s.trace iface.Name with
        | some err => (s, some (.error err))
        | none =>
          let s : State := { s with trace := s.trace ++ [.goReadARP] }
          match scanLoop w cfg iface addr cycles s with
          | (s, some (.error err)) =>
            ({ s with trace := s.trace ++ [.closeStop, .closeHandle] }, some (.error err))
          | (s, r) => (s, r)

/-! ## Predicates used in the statements -/

/-- A vendor table is sorted ascending by the numeric value of its prefixes. -/
def VendorsSorted (vendors : List VendorRecord) : Prop :=
  List.Pairwise (fun a b => a ≤ b) (vendors.map prefixNumber)

instance (vendors : List VendorRecord) : Decidable (VendorsSorted vendors) := by
  unfold VendorsSorted
  infer_instance

/-- The 24-bit value of the first three octets `b0`, `b1`, `b2` of a hardware address. -/
def ouiNumber (b0 b1 b2 : Byte) : Nat := b0.val * 2 ^ 16 + b1.val * 2 ^ 8 + b2.val

/-- The mask is contiguous with prefix length `p`: read as a 32-bit word it is `p` one bits
followed by `32 - p` zero bits. -/
def IsPrefixMask (mask : IP4) (p : Nat) : Prop :=
  p ≤ 32 ∧ bigEndianUint32 mask = 2 ^ 32 - 2 ^ (32 - p)

instance (mask : IP4) (p : Nat) : Decidable (IsPrefixMask mask p) := by
  unfold IsPrefixMask
  infer_instance

/-- The complement `^m` of a 32-bit word. -/
def not32 (m : Nat) : Nat := m ^^^ 0xffffffff

/-! ## Concrete surroundings for examples -/

/-- A world in which no call fails and no packet arrives. -/
def quietWorld : World :=
  { openLive := fun _ _ => none
    writePacketData := fun _ _ => none
    now := fun _ => 0
    received := fun _ => []
    ipString := fun _ => ""
    mapOrder := id
    newUUID := fun _ => .ok ""
    exec := fun _ => none }

/-- A world whose capture handle fails every write. -/
def brokenHandleWorld : World :=
  { quietWorld with writePacketData := fun _ _ => some "send: Network is down" }

/-- The state before `scan` starts: nothing collected, empty history, empty trace. -/
def initialState : State :=
  { current := { Time := 0, Addresses := [] }, history := [], trace := [] }

/-! ## Facts about words -/

theorem bigEndianUint32_eq (b : IP4) :
    bigEndianUint32 b = b.b0.val * 2 ^ 24 + b.b1.val * 2 ^ 16 + b.b2.val * 2 ^ 8 + b.b3.val := by
  obtain ⟨b0, b1, b2, b3⟩ := b
  have h0 := b0.isLt
  have h1 := b1.isLt
  have h2 := b2.isLt
  have h3 := b3.isLt
  simp only [bigEndianUint32, Nat.shiftLeft_eq]
  have e1 : b3.val ||| b2.val * 2 ^ 8 = 2 ^ 8 * b2.val + b3.val := by
    rw [Nat.or_comm, Nat.mul_comm]
    exact (Nat.mul_add_lt_is_or (by omega) _).symm
  have e2 : (2 ^ 8 * b2.val + b3.val) ||| b1.val * 2 ^ 16
      = 2 ^ 16 * b1.val + (2 ^ 8 * b2.val + b3.val) := by
    rw [Nat.or_comm, Nat.mul_comm]
    exact (Nat.mul_add_lt_is_or (by omega) _).symm
  have e3 : (2 ^ 16 * b1.val + (2 ^ 8 * b2.val + b3.val)) ||| b0.val * 2 ^ 24
      = 2 ^ 24 * b0.val + (2 ^ 16 * b1.val + (2 ^ 8 * b2.val + b3.val)) := by
    rw [Nat.or_comm, Nat.mul_comm]
    exact (Nat.mul_add_lt_is_or (by omega) _).symm
  rw [e1, e2, e3]
  omega

theorem bigEndianUint32_lt (b : IP4) : bigEndianUint32 b < 2 ^ 32 := by
  rw [bigEndianUint32_eq]
  have h0 := b.b0.isLt
  have h1 := b.b1.isLt
  have h2 := b.b2.isLt
  have h3 := b.b3.isLt
  omega

theorem bigEndianUint32_putUint32 (v : Nat) (hv : v < 2 ^ 32) :
    bigEndianUint32 (putUint32 v) = v := by
  rw [bigEndianUint32_eq]
  simp only [putUint32, toByte, Nat.shiftRight_eq_div_pow]
  omega

theorem and_split (k x h l : Nat) (hl : l < 2 ^ k) :
    x &&& (2 ^ k * h + l) = 2 ^ k * ((x / 2 ^ k) &&& h) + ((x % 2 ^ k) &&& l) := by
  have hx : x = 2 ^ k * (x / 2 ^ k) + x % 2 ^ k := (Nat.div_add_mod x (2 ^ k)).symm
  have hxl : x % 2 ^ k < 2 ^ k := Nat.mod_lt _ (Nat.two_pow_pos k)
  have hal : (x % 2 ^ k) &&& l < 2 ^ k := Nat.and_lt_two_pow _ hl
  apply Nat.eq_of_testBit_eq
  intro j
  rw [Nat.testBit_and, Nat.testBit_mul_pow_two_add _ hl, Nat.testBit_mul_pow_two_add _ hal]
  conv => lhs; rw [hx]
  rw [Nat.testBit_mul_pow_two_add _ hxl]
  by_cases hj : j < k <;> simp [hj]

theorem not32_eq (m : Nat) (hm : m < 2 ^ 32) : not32 m = 2 ^ 32 - 1 - m := by
  have e : 2 ^ 32 - 1 - m = 2 ^ 32 - (m + 1) := by omega
  rw [e]
  apply Nat.eq_of_testBit_eq
  intro j
  rw [Nat.testBit_two_pow_sub_succ hm]
  have e2 : (0xffffffff : Nat) = 2 ^ 32 - 1 := by norm_num
  rw [not32, e2, Nat.testBit_xor, Nat.testBit_two_pow_sub_one]
  by_cases hj : j < 32
  · simp [hj]
  · have : m.testBit j = false := by
      apply Nat.testBit_lt_two_pow
      exact Nat.lt_of_lt_of_le hm (Nat.pow_le_pow_right (by decide) (by omega))
    simp [hj, this]

theorem and_prefixMask (x k : Nat) (hx : x < 2 ^ 32) (hk : k ≤ 32) :
    x &&& (2 ^ 32 - 2 ^ k) = 2 ^ k * (x / 2 ^ k) := by
  have e : 2 ^ 32 - 2 ^ k = 2 ^ k * (2 ^ (32 - k) - 1) + 0 := by
    rw [Nat.mul_sub, ← Nat.pow_add]
    have : k + (32 - k) = 32 := by omega
    rw [this]
    simp
  rw [e, and_split k x _ 0 (Nat.two_pow_pos k), Nat.and_pow_two_sub_one_eq_mod]
  have hq : x / 2 ^ k < 2 ^ (32 - k) := by
    rw [Nat.div_lt_iff_lt_mul (Nat.two_pow_pos k), ← Nat.pow_add]
    have : 32 - k + k = 32 := by omega
    rw [this]
    exact hx
  rw [Nat.mod_eq_of_lt hq]
  simp

/-! ## Facts about `ips` -/

theorem ipsLoop_eq (k : Nat) : ∀ (num mask : Nat) (out : List IP4),
    k = 0xffffffff - mask → mask ≤ 0xffffffff → num + k < 2 ^ 32 →
    ipsLoop num mask out = out ++ (List.range k).map (fun i => putUint32 (num + i)) := by
  induction k with
  | zero =>
    intro num mask out hk hm _
    rw [ipsLoop]
    have : ¬ mask < 0xffffffff := by omega
    simp [this]
  | succ k ih =>
    intro num mask out hk hm hn
    rw [ipsLoop]
    have hlt : mask < 0xffffffff := by omega
    have e1 : (num + 1) % 2 ^ 32 = num + 1 := Nat.mod_eq_of_lt (by omega)
    have e2 : (mask + 1) % 2 ^ 32 = mask + 1 := Nat.mod_eq_of_lt (by omega)
    rw [if_pos hlt, e1, e2, ih (num + 1) (mask + 1) _ (by omega) (by omega) (by omega)]
    rw [List.range_succ_eq_map, List.map_cons, List.map_map, List.append_assoc]
    congr 1
    rw [List.singleton_append, Nat.add_zero]
    congr 1
    apply List.map_congr_left
    intro i _
    simp only [Function.comp, Nat.succ_eq_add_one]
    congr 1
    omega

theorem ips_eq (n : IPNet) :
    ips n = (List.range (2 ^ 32 - 1 - bigEndianUint32 n.Mask)).map
      (fun i => putUint32 ((bigEndianUint32 n.IP &&& bigEndianUint32 n.Mask) + i)) := by
  have hm := bigEndianUint32_lt n.Mask
  have hle : bigEndianUint32 n.IP &&& bigEndianUint32 n.Mask ≤ bigEndianUint32 n.Mask :=
    Nat.and_le_right
  simp only [ips]
  rw [ipsLoop_eq (2 ^ 32 - 1 - bigEndianUint32 n.Mask) _ _ [] (by omega) (by omega) (by omega)]
  simp

theorem ips_length (n : IPNet) : (ips n).length = 2 ^ 32 - 1 - bigEndianUint32 n.Mask := by
  rw [ips_eq]
  simp

theorem ips_getElem? (n : IPNet) (i : Nat) (hi : i < 2 ^ 32 - 1 - bigEndianUint32 n.Mask) :
    (ips n)[i]? = some (putUint32 ((bigEndianUint32 n.IP &&& bigEndianUint32 n.Mask) + i)) := by
  rw [ips_eq, List.getElem?_map, List.getElem?_range hi]
  rfl

theorem mem_ips_iff (n : IPNet) (a : IP4) :
    a ∈ ips n ↔ ∃ i, i < 2 ^ 32 - 1 - bigEndianUint32 n.Mask ∧
      a = putUint32 ((bigEndianUint32 n.IP &&& bigEndianUint32 n.Mask) + i) := by
  rw [ips_eq, List.mem_map]
  constructor
  · rintro ⟨i, hi, rfl⟩
    exact ⟨i, List.mem_range.mp hi, rfl⟩
  · rintro ⟨i, hi, rfl⟩
    exact ⟨i, List.mem_range.mpr hi, rfl⟩

theorem ips_values (n : IPNet) :
    (ips n).map bigEndianUint32 =
      List.range' (bigEndianUint32 n.IP &&& bigEndianUint32 n.Mask)
        (2 ^ 32 - 1 - bigEndianUint32 n.Mask) := by
  have hm := bigEndianUint32_lt n.Mask
  have hle : bigEndianUint32 n.IP &&& bigEndianUint32 n.Mask ≤ bigEndianUint32 n.Mask :=
    Nat.and_le_right
  rw [ips_eq, List.map_map, List.range'_eq_map_range]
  apply List.map_congr_left
  intro i hi
  have hi' := List.mem_range.mp hi
  simp only [Function.comp]
  rw [bigEndianUint32_putUint32 _ (by omega)]

/-- C2. For every IPv4 address and mask, read as big-endian 32-bit words `ip` and `m`, `ips`
returns exactly `2^32 - 1 - m` addresses and the `i`-th one (from 0) is the word
`(ip AND m) + i`, with no wrap-around; for 192.168.1.0 with mask 255.255.255.0 these are the
255 addresses 192.168.1.0, ..., 192.168.1.254. -/
theorem ips_enumerates (ip mask : IP4) :
    (ips ⟨ip, mask⟩).length = 2 ^ 32 - 1 - bigEndianUint32 mask ∧
    (∀ i, i < 2 ^ 32 - 1 - bigEndianUint32 mask →
      (ips ⟨ip, mask⟩)[i]? = some (putUint32 ((bigEndianUint32 ip &&& bigEndianUint32 mask) + i)) ∧
      bigEndianUint32 (putUint32 ((bigEndianUint32 ip &&& bigEndianUint32 mask) + i)) =
        (bigEndianUint32 ip &&& bigEndianUint32 mask) + i) ∧
    ips ⟨⟨192, 168, 1, 0⟩, ⟨255, 255, 255, 0⟩⟩ =
      (List.range 255).map (fun i => (⟨192, 168, 1, toByte i⟩ : IP4)) := by
  refine ⟨ips_length _, ?_, ?_⟩
  · intro i hi
    have hm := bigEndianUint32_lt mask
    have hle : bigEndianUint32 ip &&& bigEndianUint32 mask ≤ bigEndianUint32 mask :=
      Nat.and_le_right
    exact ⟨ips_getElem? ⟨ip, mask⟩ i hi, bigEndianUint32_putUint32 _ (by omega)⟩
  · rw [ips_eq]
    have em : bigEndianUint32 (⟨255, 255, 255, 0⟩ : IP4) = 4294967040 := by decide
    have ei : bigEndianUint32 (⟨192, 168, 1, 0⟩ : IP4) &&& 4294967040 = 3232235776 := by decide
    simp only [em, ei]
    have e255 : 2 ^ 32 - 1 - 4294967040 = 255 := by norm_num
    rw [e255]
    apply List.map_congr_left
    intro i hi
    have hi' := List.mem_range.mp hi
    simp only [putUint32, toByte, Nat.shiftRight_eq_div_pow, IP4.mk.injEq]
    refine ⟨?_, ?_, ?_, ?_⟩ <;> apply Fin.ext <;> simp <;> omega

/-- C9. With a contiguous mask of prefix length `p`, `16 <= p <= 32`, `ips` lists in strictly
increasing order (so without repetition) exactly the addresses `a` with
`base <= a < broadcast`, where `base = ip AND m` and `broadcast = base OR (NOT m)`; the base is
listed when `p < 32`, the broadcast address never. -/
theorem ips_base_to_broadcast (ip mask : IP4) (p : Nat) (hp16 : 16 ≤ p)
    (hmask : IsPrefixMask mask p) :
    (∀ a, a ∈ (ips ⟨ip, mask⟩).map bigEndianUint32 ↔
      (bigEndianUint32 ip &&& bigEndianUint32 mask) ≤ a ∧
        a < ((bigEndianUint32 ip &&& bigEndianUint32 mask) ||| not32 (bigEndianUint32 mask))) ∧
    List.Pairwise (fun a b => a < b) ((ips ⟨ip, mask⟩).map bigEndianUint32) ∧
    (p < 32 → (bigEndianUint32 ip &&& bigEndianUint32 mask) ∈
      (ips ⟨ip, mask⟩).map bigEndianUint32) ∧
    ((bigEndianUint32 ip &&& bigEndianUint32 mask) ||| not32 (bigEndianUint32 mask)) ∉
      (ips ⟨ip, mask⟩).map bigEndianUint32 := by
  obtain ⟨hp32, hm⟩ := hmask
  have hx := bigEndianUint32_lt ip
  have hpos : 0 < 2 ^ (32 - p) := Nat.two_pow_pos _
  have hle : 2 ^ (32 - p) ≤ 2 ^ 32 := Nat.pow_le_pow_right (by decide) (by omega)
  have hbase : bigEndianUint32 ip &&& bigEndianUint32 mask
      = 2 ^ (32 - p) * (bigEndianUint32 ip / 2 ^ (32 - p)) := by
    rw [hm]
    exact and_prefixMask _ _ hx (by omega)
  have hnot : not32 (bigEndianUint32 mask) = 2 ^ (32 - p) - 1 := by
    rw [not32_eq _ (bigEndianUint32_lt mask), hm]
    omega
  have hbc : (bigEndianUint32 ip &&& bigEndianUint32 mask) ||| not32 (bigEndianUint32 mask)
      = (bigEndianUint32 ip &&& bigEndianUint32 mask) + (2 ^ (32 - p) - 1) := by
    rw [hnot, hbase]
    exact (Nat.mul_add_lt_is_or (by omega) _).symm
  have hcount : 2 ^ 32 - 1 - bigEndianUint32 mask = 2 ^ (32 - p) - 1 := by
    rw [hm]
    omega
  rw [hbc, ips_values, hcount]
  simp only
  refine ⟨?_, ?_, ?_, ?_⟩
  · intro a
    rw [List.mem_range'_1]
  · exact List.pairwise_lt_range' _ _
  · intro hp
    rw [List.mem_range'_1]
    have : 2 ^ 1 ≤ 2 ^ (32 - p) := Nat.pow_le_pow_right (by decide) (by omega)
    omega
  · rw [List.mem_range'_1]
    omega

theorem ips_base_to_broadcast_witness :
    (16 : Nat) ≤ 24 ∧ IsPrefixMask ⟨255, 255, 255, 0⟩ 24 ∧
    (192 * 2 ^ 24 + 168 * 2 ^ 16 + 1 * 2 ^ 8 + 254) ∈
      (ips ⟨⟨192, 168, 1, 77⟩, ⟨255, 255, 255, 0⟩⟩).map bigEndianUint32 :=
  ⟨by decide, by decide,
   ((ips_base_to_broadcast ⟨192, 168, 1, 77⟩ ⟨255, 255, 255, 0⟩ 24 (by decide) (by decide)).1
      _).mpr (by decide)⟩

/-- C10. When the first two mask octets are both 0xff (the mask passes the sanity check of
`scan`, contiguous or not), `ips` returns at most 65535 addresses, neither 32-bit counter
wraps around, and every returned address has the first two octets of `ip` and low 16 bits
strictly below 0xffff. -/
theorem ips_within_slash16 (ip mask : IP4) (h0 : mask.b0 = 0xff) (h1 : mask.b1 = 0xff) :
    (ips ⟨ip, mask⟩).length ≤ 65535 ∧
    (∀ i, i ≤ (ips ⟨ip, mask⟩).length →
      (bigEndianUint32 ip &&& bigEndianUint32 mask) + i < 2 ^ 32 ∧
      bigEndianUint32 mask + i < 2 ^ 32) ∧
    (∀ a ∈ ips ⟨ip, mask⟩,
      a.b0 = ip.b0 ∧ a.b1 = ip.b1 ∧ a.b2.val * 2 ^ 8 + a.b3.val < 0xffff) := by
  have hm := bigEndianUint32_eq mask
  have hx := bigEndianUint32_eq ip
  have hxlt := bigEndianUint32_lt ip
  rw [h0, h1] at hm
  have m2 := mask.b2.isLt
  have m3 := mask.b3.isLt
  have i0 := ip.b0.isLt
  have i1 := ip.b1.isLt
  have i2 := ip.b2.isLt
  have i3 := ip.b3.isLt
  have hm' : bigEndianUint32 mask = 2 ^ 16 * 0xffff + (mask.b2.val * 2 ^ 8 + mask.b3.val) := by
    rw [hm]
    simp
    omega
  have hlow : mask.b2.val * 2 ^ 8 + mask.b3.val < 2 ^ 16 := by omega
  have hand := and_split 16 (bigEndianUint32 ip) 0xffff _ hlow
  rw [← hm'] at hand
  have e16 : (0xffff : Nat) = 2 ^ 16 - 1 := by norm_num
  rw [e16, Nat.and_pow_two_sub_one_eq_mod,
    Nat.mod_eq_of_lt (by omega : bigEndianUint32 ip / 2 ^ 16 < 2 ^ 16)] at hand
  have hl : bigEndianUint32 ip % 2 ^ 16 &&& (mask.b2.val * 2 ^ 8 + mask.b3.val)
      ≤ mask.b2.val * 2 ^ 8 + mask.b3.val := Nat.and_le_right
  generalize bigEndianUint32 ip % 2 ^ 16 &&& (mask.b2.val * 2 ^ 8 + mask.b3.val) = low at hand hl
  have hlen := ips_length ⟨ip, mask⟩
  simp only at hlen
  refine ⟨by omega, ?_, ?_⟩
  · intro i hi
    omega
  · intro a ha
    obtain ⟨i, hi, rfl⟩ := (mem_ips_iff _ _).mp ha
    simp only at hi
    simp only [hand]
    simp only [putUint32, toByte, Nat.shiftRight_eq_div_pow]
    refine ⟨?_, ?_, ?_⟩
    · apply Fin.ext
      show (2 ^ 16 * (bigEndianUint32 ip / 2 ^ 16) + low + i) / 2 ^ 24 % 256 = ip.b0.val
      omega
    · apply Fin.ext
      show (2 ^ 16 * (bigEndianUint32 ip / 2 ^ 16) + low + i) / 2 ^ 16 % 256 = ip.b1.val
      omega
    · show (2 ^ 16 * (bigEndianUint32 ip / 2 ^ 16) + low + i) / 2 ^ 8 % 256 * 2 ^ 8 +
        (2 ^ 16 * (bigEndianUint32 ip / 2 ^ 16) + low + i) % 256 < 0xffff
      omega

theorem ips_within_slash16_witness :
    (⟨255, 255, 240, 0⟩ : IP4).b0 = 0xff ∧ (⟨255, 255, 240, 0⟩ : IP4).b1 = 0xff ∧
    (ips ⟨⟨10, 1, 2, 3⟩, ⟨255, 255, 240, 0⟩⟩).length ≤ 65535 :=
  ⟨by decide, by decide, (ips_within_slash16 ⟨10, 1, 2, 3⟩ ⟨255, 255, 240, 0⟩ rfl rfl).1⟩

/-! ## Facts about `deduplicateNetwork` -/

theorem mapLookup_eq_none_iff (m : AddressMap) (k : String) :
    mapLookup m k = none ↔ k ∉ m.map Prod.fst := by
  induction m with
  | nil => simp [mapLookup]
  | cons e rest ih =>
    obtain ⟨k', v⟩ := e
    simp only [mapLookup, List.map_cons, List.mem_cons, not_or]
    by_cases h : k' = k
    · simp [h]
    · simp only [if_neg h, ih]
      constructor
      · intro hr
        exact ⟨fun hk => h hk.symm, hr⟩
      · intro hr
        exact hr.2

theorem mapStore_of_not_mem (m : AddressMap) (k : String) (v : Address)
    (h : k ∉ m.map Prod.fst) : mapStore m k v = m ++ [(k, v)] := by
  induction m with
  | nil => simp [mapStore]
  | cons e rest ih =>
    obtain ⟨k', v'⟩ := e
    simp only [List.map_cons, List.mem_cons, not_or] at h
    have hne : ¬ k' = k := fun hk => h.1 hk.symm
    simp [mapStore, hne, ih h.2]

theorem dedupLoop_cons_none (a : Address) (rest : List Address) (m : AddressMap)
    (h : a.IP ∉ m.map Prod.fst) :
    dedupLoop (a :: rest) m = dedupLoop rest (m ++ [(a.IP, a)]) := by
  have hl := (mapLookup_eq_none_iff m a.IP).mpr h
  simp only [dedupLoop, hl, mapStore_of_not_mem m a.IP a h]

theorem dedupLoop_cons_some (a : Address) (rest : List Address) (m : AddressMap)
    (h : a.IP ∈ m.map Prod.fst) :
    dedupLoop (a :: rest) m = dedupLoop rest m := by
  have hl : mapLookup m a.IP ≠ none := fun hn => (mapLookup_eq_none_iff m a.IP).mp hn h
  cases hc : mapLookup m a.IP with
  | none => exact absurd hc hl
  | some v => simp only [dedupLoop, hc]

theorem dedupLoop_keys (as : List Address) : ∀ (m : AddressMap) (k : String),
    k ∈ (dedupLoop as m).map Prod.fst ↔ k ∈ m.map Prod.fst ∨ k ∈ as.map (fun a => a.IP) := by
  induction as with
  | nil => intro m k; simp [dedupLoop]
  | cons a rest ih =>
    intro m k
    by_cases h : a.IP ∈ m.map Prod.fst
    · rw [dedupLoop_cons_some a rest m h, ih]
      simp only [List.map_cons, List.mem_cons]
      constructor
      · rintro (h1 | h1)
        · exact Or.inl h1
        · exact Or.inr (Or.inr h1)
      · rintro (h1 | h1 | h1)
        · exact Or.inl h1
        · exact Or.inl (h1 ▸ h)
        · exact Or.inr h1
    · rw [dedupLoop_cons_none a rest m h, ih]
      simp only [List.map_append, List.map_cons, List.map_nil, List.mem_append, List.mem_cons,
        List.mem_singleton, List.not_mem_nil, or_false]
      tauto

theorem dedupLoop_nodup (as : List Address) : ∀ (m : AddressMap),
    (m.map Prod.fst).Nodup → ((dedupLoop as m).map Prod.fst).Nodup := by
  induction as with
  | nil => intro m hm; simpa [dedupLoop] using hm
  | cons a rest ih =>
    intro m hm
    by_cases h : a.IP ∈ m.map Prod.fst
    · rw [dedupLoop_cons_some a rest m h]
      exact ih m hm
    · rw [dedupLoop_cons_none a rest m h]
      apply ih
      rw [List.map_append, List.nodup_append]
      refine ⟨hm, by simp, ?_⟩
      intro x hx hx'
      simp only [List.map_cons, List.map_nil, List.mem_singleton] at hx'
      exact h (hx' ▸ hx)

theorem dedupLoop_first (as : List Address) : ∀ (m : AddressMap) (e : String × Address),
    e ∈ dedupLoop as m →
      e ∈ m ∨ (e.1 ∉ m.map Prod.fst ∧ as.find? (fun b => b.IP == e.1) = some e.2) := by
  induction as with
  | nil => intro m e he; exact Or.inl (by simpa [dedupLoop] using he)
  | cons a rest ih =>
    intro m e he
    by_cases h : a.IP ∈ m.map Prod.fst
    · rw [dedupLoop_cons_some a rest m h] at he
      rcases ih m e he with h1 | ⟨h1, h2⟩
      · exact Or.inl h1
      · refine Or.inr ⟨h1, ?_⟩
        have hne : ¬ a.IP = e.1 := fun hk => h1 (hk ▸ h)
        rw [List.find?_cons_of_neg _ (by simpa using hne)]
        exact h2
    · rw [dedupLoop_cons_none a rest m h] at he
      rcases ih _ e he with h1 | ⟨h1, h2⟩
      · rcases List.mem_append.mp h1 with h3 | h3
        · exact Or.inl h3
        · have he' : e = (a.IP, a) := by simpa using h3
          subst he'
          exact Or.inr ⟨h, by simp [List.find?]⟩
      · simp only [List.map_append, List.map_cons, List.map_nil, List.mem_append,
          List.mem_singleton, not_or] at h1
        refine Or.inr ⟨h1.1, ?_⟩
        have hne : ¬ a.IP = e.1 := fun hk => h1.2 hk.symm
        rw [List.find?_cons_of_neg _ (by simpa using hne)]
        exact h2

theorem foldl_append_snd (l : AddressMap) : ∀ (acc : List Address),
    l.foldl (fun addresses e => addresses ++ [e.2]) acc = acc ++ l.map Prod.snd := by
  induction l with
  | nil => intro acc; simp
  | cons e rest ih => intro acc; simp [ih]

theorem deduplicateNetwork_addresses (order : AddressMap → AddressMap) (network : Network) :
    (deduplicateNetwork order network).Addresses =
      (order (dedupLoop network.Addresses [])).map Prod.snd := by
  simp [deduplicateNetwork, foldl_append_snd]

theorem dedupLoop_entry_ip (as : List Address) (e : String × Address)
    (he : e ∈ dedupLoop as []) : e.2.IP = e.1 := by
  rcases dedupLoop_first as [] e he with h | ⟨_, h⟩
  · simp at h
  · have := List.find?_some h
    simpa using this

/-- C3. Whatever order the run time walks the map in, the result of `deduplicateNetwork` holds
every IP of the input exactly once and no other IP, no two entries share an IP, every entry
kept is the first input entry with its IP, and `Time` is unchanged; for the input
1.1.1.1/AA, 1.1.1.1/BB, 2.2.2.2/CC the result has two entries and 1.1.1.1 carries AA. -/
theorem deduplicateNetwork_first_seen (order : AddressMap → AddressMap)
    (horder : ∀ m, (order m).Perm m) (network : Network) :
    (∀ ip ∈ network.Addresses.map (fun a => a.IP),
      ((deduplicateNetwork order network).Addresses.map (fun a => a.IP)).count ip = 1) ∧
    (∀ ip ∈ (deduplicateNetwork order network).Addresses.map (fun a => a.IP),
      ip ∈ network.Addresses.map (fun a => a.IP)) ∧
    ((deduplicateNetwork order network).Addresses.map (fun a => a.IP)).Nodup ∧
    (∀ a ∈ (deduplicateNetwork order network).Addresses,
      network.Addresses.find? (fun b => b.IP == a.IP) = some a) ∧
    (deduplicateNetwork order network).Time = network.Time ∧
    ((deduplicateNetwork order
        ⟨network.Time, [⟨"1.1.1.1", "AA", ""⟩, ⟨"1.1.1.1", "BB", ""⟩, ⟨"2.2.2.2", "CC", ""⟩]⟩
      ).Addresses.length = 2 ∧
     ∀ a ∈ (deduplicateNetwork order
        ⟨network.Time, [⟨"1.1.1.1", "AA", ""⟩, ⟨"1.1.1.1", "BB", ""⟩, ⟨"2.2.2.2", "CC", ""⟩]⟩
      ).Addresses, a.IP = "1.1.1.1" → a.MAC = "AA") := by
  have hperm := horder (dedupLoop network.Addresses [])
  have hips : (deduplicateNetwork order network).Addresses.map (fun a => a.IP)
      = (order (dedupLoop network.Addresses [])).map Prod.fst := by
    rw [deduplicateNetwork_addresses, List.map_map]
    apply List.map_congr_left
    intro e he
    exact dedupLoop_entry_ip network.Addresses e (hperm.mem_iff.mp he)
  have hkeys : ∀ k, k ∈ (order (dedupLoop network.Addresses [])).map Prod.fst ↔
      k ∈ network.Addresses.map (fun a => a.IP) := by
    intro k
    rw [(hperm.map Prod.fst).mem_iff, dedupLoop_keys]
    simp
  have hnodup : ((order (dedupLoop network.Addresses [])).map Prod.fst).Nodup :=
    (hperm.map Prod.fst).nodup_iff.mpr (dedupLoop_nodup network.Addresses [] (by simp))
  refine ⟨?_, ?_, ?_, ?_, rfl, ?_, ?_⟩
  · intro ip hip
    rw [hips]
    exact List.count_eq_one_of_mem hnodup ((hkeys ip).mpr hip)
  · intro ip hip
    rw [hips] at hip
    exact (hkeys ip).mp hip
  · rw [hips]
    exact hnodup
  · intro a ha
    rw [deduplicateNetwork_addresses] at ha
    obtain ⟨e, he, rfl⟩ := List.mem_map.mp ha
    have he' := hperm.mem_iff.mp he
    rcases dedupLoop_first network.Addresses [] e he' with h | ⟨_, h⟩
    · simp at h
    · rw [dedupLoop_entry_ip network.Addresses e he']
      exact h
  · rw [deduplicateNetwork_addresses, List.length_map]
    exact (horder _).length_eq
  · intro a ha
    rw [deduplicateNetwork_addresses] at ha
    obtain ⟨e, he, rfl⟩ := List.mem_map.mp ha
    have he' := (horder _).mem_iff.mp he
    have hl : dedupLoop [⟨"1.1.1.1", "AA", ""⟩, ⟨"1.1.1.1", "BB", ""⟩, ⟨"2.2.2.2", "CC", ""⟩] []
        = [("1.1.1.1", ⟨"1.1.1.1", "AA", ""⟩), ("2.2.2.2", ⟨"2.2.2.2", "CC", ""⟩)] := by decide
    simp only [hl, List.mem_cons, List.mem_singleton, List.not_mem_nil, or_false] at he'
    rcases he' with rfl | rfl
    · intro _; rfl
    · intro h
      exact absurd h (by decide)

theorem deduplicateNetwork_first_seen_witness :
    (∀ m : AddressMap, (List.reverse m).Perm m) ∧
    (deduplicateNetwork List.reverse
      ⟨7, [⟨"1.1.1.1", "AA", ""⟩, ⟨"1.1.1.1", "BB", ""⟩, ⟨"2.2.2.2", "CC", ""⟩]⟩).Addresses
      = [⟨"2.2.2.2", "CC", ""⟩, ⟨"1.1.1.1", "AA", ""⟩] ∧
    ((deduplicateNetwork List.reverse
      ⟨7, [⟨"1.1.1.1", "AA", ""⟩, ⟨"1.1.1.1", "BB", ""⟩, ⟨"2.2.2.2", "CC", ""⟩]⟩).Addresses.map
        (fun a => a.IP)).Nodup :=
  ⟨fun m => List.reverse_perm m, by decide,
   (deduplicateNetwork_first_seen List.reverse (fun m => List.reverse_perm m)
      ⟨7, [⟨"1.1.1.1", "AA", ""⟩, ⟨"1.1.1.1", "BB", ""⟩, ⟨"2.2.2.2", "CC", ""⟩]⟩).2.2.1⟩

/-! ## Facts about the text of a hardware address -/

theorem digitVal_upper_hexDigit : ∀ n : Fin 16,
    digitVal (Char.toUpper (hexDigit n.val)) = some n.val := by decide

theorem hexDigit_ne_colon : ∀ n : Fin 16, hexDigit n.val ≠ ':' := by decide

theorem splitChars_ne_nil (sep : Char) (cs : List Char) : splitChars sep cs ≠ [] := by
  cases cs with
  | nil => simp [splitChars]
  | cons c cs =>
    simp only [splitChars]
    split
    · simp
    · split <;> simp

theorem splitChars_cons_of_ne (sep c : Char) (cs : List Char) (h : c ≠ sep) :
    splitChars sep (c :: cs) =
      (c :: (splitChars sep cs).headD []) :: (splitChars sep cs).tail := by
  simp only [splitChars, if_neg h]
  cases hs : splitChars sep cs with
  | nil => exact absurd hs (splitChars_ne_nil sep cs)
  | cons p ps => simp

theorem splitChars_cons_sep (sep : Char) (cs : List Char) :
    splitChars sep (sep :: cs) = [] :: splitChars sep cs := by
  simp [splitChars]

theorem parseUintLoop_step (c : Char) (cs : List Char) (n d : Nat)
    (hc : digitVal c = some d) (hd : d < 16) (hn : n < 2 ^ 56) :
    parseUintLoop (c :: cs) n = parseUintLoop cs (n * 16 + d) := by
  have e1 : n * 16 % 2 ^ 64 = n * 16 := Nat.mod_eq_of_lt (by omega)
  have e2 : (n * 16 + d) % 2 ^ 64 = n * 16 + d := Nat.mod_eq_of_lt (by omega)
  simp only [parseUintLoop, hc, e1, e2]
  rw [if_neg (by omega), if_neg (by omega), if_neg (by omega)]
theorem hexDigit_ne_colon_of_lt (n : Nat) (h : n < 16) : hexDigit n ≠ ':' :=
  hexDigit_ne_colon ⟨n, h⟩

theorem digitVal_upper_hexDigit_of_lt (n : Nat) (h : n < 16) :
    digitVal (Char.toUpper (hexDigit n)) = some n :=
  digitVal_upper_hexDigit ⟨n, h⟩

theorem byte_high_nibble (b : Byte) : b.val >>> 4 = b.val / 16 := by
  rw [Nat.shiftRight_eq_div_pow]

theorem byte_low_nibble (b : Byte) : b.val &&& 0xF = b.val % 16 := by
  have e : (0xF : Nat) = 2 ^ 4 - 1 := by norm_num
  rw [e, Nat.and_pow_two_sub_one_eq_mod]

theorem hardwareAddrLoop_tail (rest : List Byte) (i : Nat) (hi : 0 < i) :
    (splitChars ':' (hardwareAddrLoop i rest)).headD [] = [] := by
  cases rest with
  | nil => simp [hardwareAddrLoop, splitChars]
  | cons b rest =>
    simp only [hardwareAddrLoop, if_pos hi, List.singleton_append, List.cons_append]
    rw [splitChars_cons_sep]
    rfl

theorem splitChars_hardwareAddr (b0 b1 b2 : Byte) (rest : List Byte) :
    splitChars ':' (hardwareAddrLoop 0 (b0 :: b1 :: b2 :: rest)) =
      [hexDigit (b0.val / 16), hexDigit (b0.val % 16)] ::
      [hexDigit (b1.val / 16), hexDigit (b1.val % 16)] ::
      [hexDigit (b2.val / 16), hexDigit (b2.val % 16)] ::
      (splitChars ':' (hardwareAddrLoop 3 rest)).tail := by
  have h0 := b0.isLt
  have h1 := b1.isLt
  have h2 := b2.isLt
  simp only [hardwareAddrLoop, byte_high_nibble, byte_low_nibble]
  simp only [Nat.lt_irrefl, if_false, List.nil_append, List.cons_append, Nat.zero_add,
    Nat.lt_add_one, if_true, List.singleton_append, gt_iff_lt, Nat.zero_lt_succ,
    Nat.reduceAdd, Nat.zero_lt_one]
  rw [splitChars_cons_of_ne _ _ _ (hexDigit_ne_colon_of_lt _ (by omega)),
    splitChars_cons_of_ne _ _ _ (hexDigit_ne_colon_of_lt _ (by omega)),
    splitChars_cons_sep,
    splitChars_cons_of_ne _ _ _ (hexDigit_ne_colon_of_lt _ (by omega)),
    splitChars_cons_of_ne _ _ _ (hexDigit_ne_colon_of_lt _ (by omega)),
    splitChars_cons_sep,
    splitChars_cons_of_ne _ _ _ (hexDigit_ne_colon_of_lt _ (by omega)),
    splitChars_cons_of_ne _ _ _ (hexDigit_ne_colon_of_lt _ (by omega)),
    hardwareAddrLoop_tail rest 3 (by decide)]
  simp

theorem macPrefixOf_hardwareAddr (b0 b1 b2 : Byte) (rest : List Byte) :
    macPrefixOf (hardwareAddrString (b0 :: b1 :: b2 :: rest)) =
      .ok ⟨[Char.toUpper (hexDigit (b0.val / 16)), Char.toUpper (hexDigit (b0.val % 16)),
            Char.toUpper (hexDigit (b1.val / 16)), Char.toUpper (hexDigit (b1.val % 16)),
            Char.toUpper (hexDigit (b2.val / 16)), Char.toUpper (hexDigit (b2.val % 16))]⟩ := by
  simp only [macPrefixOf, splitColon, hardwareAddrString, splitChars_hardwareAddr, List.map_cons,
    index, List.get?_cons_zero, List.get?_cons_succ]
  rfl

theorem parseUint_macPrefix (b0 b1 b2 : Byte) :
    parseUint ⟨[Char.toUpper (hexDigit (b0.val / 16)), Char.toUpper (hexDigit (b0.val % 16)),
            Char.toUpper (hexDigit (b1.val / 16)), Char.toUpper (hexDigit (b1.val % 16)),
            Char.toUpper (hexDigit (b2.val / 16)), Char.toUpper (hexDigit (b2.val % 16))]⟩
      = (ouiNumber b0 b1 b2, none) := by
  have h0 := b0.isLt
  have h1 := b1.isLt
  have h2 := b2.isLt
  simp only [parseUint, List.cons_ne_nil, if_false, reduceCtorEq]
  rw [parseUintLoop_step _ _ _ _ (digitVal_upper_hexDigit_of_lt _ (by omega)) (by omega) (by omega),
    parseUintLoop_step _ _ _ _ (digitVal_upper_hexDigit_of_lt _ (by omega)) (by omega) (by omega),
    parseUintLoop_step _ _ _ _ (digitVal_upper_hexDigit_of_lt _ (by omega)) (by omega) (by omega),
    parseUintLoop_step _ _ _ _ (digitVal_upper_hexDigit_of_lt _ (by omega)) (by omega) (by omega),
    parseUintLoop_step _ _ _ _ (digitVal_upper_hexDigit_of_lt _ (by omega)) (by omega) (by omega),
    parseUintLoop_step _ _ _ _ (digitVal_upper_hexDigit_of_lt _ (by omega)) (by omega) (by omega)]
  simp only [parseUintLoop, ouiNumber, Prod.mk.injEq, and_true]
  omega
/-! ## Facts about `sort.Search` and the vendor lookup -/

theorem index_eq_ok_iff {α : Type} (xs : List α) (i : Nat) (x : α) :
    index xs i = .ok x ↔ xs[i]? = some x := by
  simp only [index, List.get?_eq_getElem?]
  cases h : xs[i]? with
  | none => simp
  | some y => simp

theorem index_of_lt {α : Type} (xs : List α) (i : Nat) (h : i < xs.length) :
    index xs i = .ok xs[i] := by
  rw [index_eq_ok_iff]
  exact List.getElem?_eq_getElem h

theorem vendorsSorted_le (vendors : List VendorRecord) (hs : VendorsSorted vendors)
    (k k' : Nat) (u u' : VendorRecord) (hk : vendors[k]? = some u) (hk' : vendors[k']? = some u')
    (hle : k ≤ k') : prefixNumber u ≤ prefixNumber u' := by
  rcases Nat.eq_or_lt_of_le hle with h | h
  · subst h
    rw [hk] at hk'
    cases hk'
    exact Nat.le_refl _
  · unfold VendorsSorted at hs
    rw [List.pairwise_iff_getElem] at hs
    obtain ⟨hlt, e⟩ := List.getElem?_eq_some.mp hk
    obtain ⟨hlt', e'⟩ := List.getElem?_eq_some.mp hk'
    have := hs k k' (by simpa using hlt) (by simpa using hlt') h
    simpa [e, e'] using this

theorem searchLoop_spec (vendors : List VendorRecord) (t : Nat) (hs : VendorsSorted vendors) :
    ∀ (d i j : Nat), j - i = d → i ≤ j → j ≤ vendors.length →
      (∀ k u, k < i → vendors[k]? = some u → prefixNumber u < t) →
      (∀ k u, j ≤ k → vendors[k]? = some u → t ≤ prefixNumber u) →
      ∃ r, searchLoop (searchPred vendors t) i j = .ok r ∧ r ≤ vendors.length ∧
        (∀ k u, k < r → vendors[k]? = some u → prefixNumber u < t) ∧
        (∀ k u, r ≤ k → vendors[k]? = some u → t ≤ prefixNumber u) := by
  intro d
  induction d using Nat.strong_induction_on with
  | _ d ih =>
    intro i j hd hij hj hlo hhi
    rw [searchLoop]
    by_cases hlt : i < j
    · rw [if_pos hlt]
      have hdiv : (i + j) >>> 1 = (i + j) / 2 := by rw [Nat.shiftRight_eq_div_pow]
      rw [hdiv]
      have hh1 : i ≤ (i + j) / 2 := by omega
      have hh2 : (i + j) / 2 < j := by omega
      have hh3 : (i + j) / 2 < vendors.length := by omega
      have hget : vendors[(i + j) / 2]? = some vendors[(i + j) / 2] :=
        List.getElem?_eq_getElem hh3
      simp only [searchPred, index_of_lt vendors _ hh3]
      by_cases hp : t ≤ prefixNumber vendors[(i + j) / 2]
      · have hb : decide (prefixNumber vendors[(i + j) / 2] ≥ t) = true := by simpa using hp
        simp only [hb, Bool.not_true, Bool.false_eq_true, if_false]
        apply ih ((i + j) / 2 - i) (by omega) i ((i + j) / 2) rfl hh1 (by omega) hlo
        intro k u hk hu
        exact Nat.le_trans hp (vendorsSorted_le vendors hs _ _ _ _ hget hu hk)
      · have hb : decide (prefixNumber vendors[(i + j) / 2] ≥ t) = false := by simpa using hp
        simp only [hb, Bool.not_false, if_true]
        apply ih (j - ((i + j) / 2 + 1)) (by omega) ((i + j) / 2 + 1) j rfl (by omega) hj _ hhi
        intro k u hk hu
        have := vendorsSorted_le vendors hs _ _ _ _ hu hget (by omega)
        omega
    · rw [if_neg hlt]
      have : i = j := by omega
      subst this
      exact ⟨i, rfl, hj, hlo, hhi⟩

theorem lookupVendor_spec (vendors : List VendorRecord) (hs : VendorsSorted vendors)
    (macPrefix : String) (t : Nat) (hparse : parseUint macPrefix = (t, none)) :
    ∃ r, r ≤ vendors.length ∧
      (∀ k u, k < r → vendors[k]? = some u → prefixNumber u < t) ∧
      (∀ k u, r ≤ k → vendors[k]? = some u → t ≤ prefixNumber u) ∧
      lookupVendor vendors macPrefix = .ok ((vendors[r]?.map (fun v => v.Vendor)).getD "") := by
  obtain ⟨r, hr, hlen, hlo, hhi⟩ := searchLoop_spec vendors t hs vendors.length 0 vendors.length
    rfl (Nat.zero_le _) (Nat.le_refl _) (fun k u hk _ => absurd hk (Nat.not_lt_zero k))
    (fun k u hk hu => by
      have := (List.getElem?_eq_some.mp hu).1
      omega)
  refine ⟨r, hlen, hlo, hhi, ?_⟩
  simp only [lookupVendor, hparse, sortSearch, hr]
  by_cases hlt : r < vendors.length
  · simp [hlt, index_of_lt vendors r hlt, List.getElem?_eq_getElem hlt]
  · simp [hlt, List.getElem?_eq_none (Nat.le_of_not_lt hlt)]

theorem resolveVendor_spec (vendors : List VendorRecord) (hs : VendorsSorted vendors)
    (b0 b1 b2 : Byte) (rest : List Byte) :
    ∃ r, r ≤ vendors.length ∧
      (∀ k u, k < r → vendors[k]? = some u → prefixNumber u < ouiNumber b0 b1 b2) ∧
      (∀ k u, r ≤ k → vendors[k]? = some u → ouiNumber b0 b1 b2 ≤ prefixNumber u) ∧
      resolveVendor vendors (b0 :: b1 :: b2 :: rest) =
        .ok ((vendors[r]?.map (fun v => v.Vendor)).getD "") := by
  obtain ⟨r, h1, h2, h3, h4⟩ :=
    lookupVendor_spec vendors hs _ (ouiNumber b0 b1 b2) (parseUint_macPrefix b0 b1 b2)
  refine ⟨r, h1, h2, h3, ?_⟩
  simp only [resolveVendor, macPrefixOf_hardwareAddr, h4]

theorem resolveVendor_of_first (vendors : List VendorRecord) (hs : VendorsSorted vendors)
    (b0 b1 b2 : Byte) (rest : List Byte) (i : Nat) (v : VendorRecord)
    (hv : vendors[i]? = some v) (hge : ouiNumber b0 b1 b2 ≤ prefixNumber v)
    (hbefore : ∀ k u, k < i → vendors[k]? = some u → prefixNumber u < ouiNumber b0 b1 b2) :
    resolveVendor vendors (b0 :: b1 :: b2 :: rest) = .ok v.Vendor := by
  obtain ⟨r, _, h2, h3, h4⟩ := resolveVendor_spec vendors hs b0 b1 b2 rest
  have hri : r = i := by
    rcases Nat.lt_trichotomy r i with h | h | h
    · have hr : r < vendors.length := Nat.lt_trans h (List.getElem?_eq_some.mp hv).1
      have a1 := hbefore r vendors[r] h (List.getElem?_eq_getElem hr)
      have a2 := h3 r vendors[r] (Nat.le_refl _) (List.getElem?_eq_getElem hr)
      omega
    · exact h
    · have := h2 i v h hv
      omega
  rw [h4, hri, hv]
  rfl

theorem resolveVendor_of_none (vendors : List VendorRecord) (hs : VendorsSorted vendors)
    (b0 b1 b2 : Byte) (rest : List Byte)
    (hall : ∀ v ∈ vendors, prefixNumber v < ouiNumber b0 b1 b2) :
    resolveVendor vendors (b0 :: b1 :: b2 :: rest) = .ok "" := by
  obtain ⟨r, h1, _, h3, h4⟩ := resolveVendor_spec vendors hs b0 b1 b2 rest
  have hr : ¬ r < vendors.length := by
    intro hr
    have a1 := h3 r vendors[r] (Nat.le_refl _) (List.getElem?_eq_getElem hr)
    have a2 := hall vendors[r] (List.getElem_mem _)
    omega
  rw [h4, List.getElem?_eq_none (Nat.le_of_not_lt hr)]
  rfl
theorem resolveVendor_of_equal (vendors : List VendorRecord) (hs : VendorsSorted vendors)
    (b0 b1 b2 : Byte) (rest : List Byte) (i : Nat) (v : VendorRecord)
    (hv : vendors[i]? = some v) (heq : prefixNumber v = ouiNumber b0 b1 b2) :
    ∃ (j : Nat) (w : VendorRecord), j ≤ i ∧ vendors[j]? = some w ∧ prefixNumber w = ouiNumber b0 b1 b2 ∧
      (∀ (k : Nat) (u : VendorRecord), k < j → vendors[k]? = some u → prefixNumber u < ouiNumber b0 b1 b2) ∧
      resolveVendor vendors (b0 :: b1 :: b2 :: rest) = .ok w.Vendor := by
  obtain ⟨r, _, h2, h3, h4⟩ := resolveVendor_spec vendors hs b0 b1 b2 rest
  have hri : r ≤ i := by
    by_contra hc
    have := h2 i v (by omega) hv
    omega
  have hr : r < vendors.length := Nat.lt_of_le_of_lt hri (List.getElem?_eq_some.mp hv).1
  have hget : vendors[r]? = some vendors[r] := List.getElem?_eq_getElem hr
  refine ⟨r, vendors[r], hri, hget, ?_, h2, ?_⟩
  · have a1 := h3 r vendors[r] (Nat.le_refl _) hget
    have a2 := vendorsSorted_le vendors hs r i _ _ hget hv hri
    omega
  · rw [h4, hget]
    rfl

/-- C4. For a vendor table sorted ascending by prefix value and a hardware address with at
least three octets `b0 b1 b2`, the vendor resolution of `readARP` returns, without failing,
the vendor of the lowest-index entry whose prefix value is at least the 24-bit value of
`b0 b1 b2`, and the empty name when there is no such entry. So an entry with exactly that
value is matched (the first one with that value), and a value strictly between two adjacent
entries gives the vendor of the greater one; e.g. `ACDE48` for `ac:de:48:00:11:22`. -/
theorem resolveVendor_nearest (vendors : List VendorRecord) (hs : VendorsSorted vendors)
    (b0 b1 b2 : Byte) (rest : List Byte) :
    (∀ (i : Nat) (v : VendorRecord), vendors[i]? = some v → ouiNumber b0 b1 b2 ≤ prefixNumber v →
      (∀ (k : Nat) (u : VendorRecord), k < i → vendors[k]? = some u → prefixNumber u < ouiNumber b0 b1 b2) →
      resolveVendor vendors (b0 :: b1 :: b2 :: rest) = .ok v.Vendor) ∧
    ((∀ v ∈ vendors, prefixNumber v < ouiNumber b0 b1 b2) →
      resolveVendor vendors (b0 :: b1 :: b2 :: rest) = .ok "") ∧
    (∀ (i : Nat) (v : VendorRecord), vendors[i]? = some v → prefixNumber v = ouiNumber b0 b1 b2 →
      ∃ (j : Nat) (w : VendorRecord), j ≤ i ∧ vendors[j]? = some w ∧ prefixNumber w = ouiNumber b0 b1 b2 ∧
        (∀ (k : Nat) (u : VendorRecord), k < j → vendors[k]? = some u → prefixNumber u < ouiNumber b0 b1 b2) ∧
        resolveVendor vendors (b0 :: b1 :: b2 :: rest) = .ok w.Vendor) ∧
    (∀ (i : Nat) (v : VendorRecord), vendors[i]? = some v → prefixNumber v = ouiNumber b0 b1 b2 →
      (∀ (k : Nat) (u : VendorRecord), k < i → vendors[k]? = some u →
        prefixNumber u ≠ ouiNumber b0 b1 b2) →
      resolveVendor vendors (b0 :: b1 :: b2 :: rest) = .ok v.Vendor) ∧
    (∀ (i : Nat) (u v : VendorRecord), vendors[i]? = some u → vendors[i + 1]? = some v →
      prefixNumber u < ouiNumber b0 b1 b2 → ouiNumber b0 b1 b2 < prefixNumber v →
      resolveVendor vendors (b0 :: b1 :: b2 :: rest) = .ok v.Vendor) ∧
    resolveVendor [⟨"000001", "A"⟩, ⟨"ACDE48", "B"⟩, ⟨"FFFFFF", "C"⟩]
      [0xac, 0xde, 0x48, 0x00, 0x11, 0x22] = .ok "B" ∧
    resolveVendor [⟨"000001", "A"⟩, ⟨"ACDE48", "B"⟩, ⟨"FFFFFF", "C"⟩]
      [0xac, 0xde, 0x49, 0x00, 0x11, 0x22] = .ok "C" := by
  refine ⟨?_, ?_, ?_, ?_, ?_, ?_, ?_⟩
  · intro i v hv hge hbefore
    exact resolveVendor_of_first vendors hs b0 b1 b2 rest i v hv hge hbefore
  · exact resolveVendor_of_none vendors hs b0 b1 b2 rest
  · intro i v hv heq
    exact resolveVendor_of_equal vendors hs b0 b1 b2 rest i v hv heq
  · intro i v hv heq hbefore
    apply resolveVendor_of_first vendors hs b0 b1 b2 rest i v hv (Nat.le_of_eq heq.symm)
    intro k u hk hu
    have a1 := vendorsSorted_le vendors hs k i u v hu hv (Nat.le_of_lt hk)
    have a2 := hbefore k u hk hu
    omega
  · intro i u v hu hv hlt hgt
    apply resolveVendor_of_first vendors hs b0 b1 b2 rest (i + 1) v hv (Nat.le_of_lt hgt)
    intro k w hk hw
    have a1 := vendorsSorted_le vendors hs k i w u hw hu (by omega)
    omega
  · apply resolveVendor_of_first _ (by decide) _ _ _ _ 1 ⟨"ACDE48", "B"⟩ (by decide) (by decide)
    intro k u hk hu
    have hk0 : k = 0 := by omega
    subst hk0
    simp only [List.getElem?_cons_zero, Option.some.injEq] at hu
    subst hu
    decide
  · apply resolveVendor_of_first _ (by decide) _ _ _ _ 2 ⟨"FFFFFF", "C"⟩ (by decide) (by decide)
    intro k u hk hu
    have hk0 : k = 0 ∨ k = 1 := by omega
    rcases hk0 with rfl | rfl
    · simp only [List.getElem?_cons_zero, Option.some.injEq] at hu
      subst hu
      decide
    · simp only [List.getElem?_cons_succ, List.getElem?_cons_zero, Option.some.injEq] at hu
      subst hu
      decide

theorem resolveVendor_nearest_witness :
    VendorsSorted [⟨"00000C", "Cisco"⟩, ⟨"ACDE48", "Private"⟩] ∧
    resolveVendor [⟨"00000C", "Cisco"⟩, ⟨"ACDE48", "Private"⟩] [0xff, 0xff, 0xff, 1, 2, 3]
      = .ok "" :=
  ⟨by decide,
   (resolveVendor_nearest [⟨"00000C", "Cisco"⟩, ⟨"ACDE48", "Private"⟩] (by decide)
      0xff 0xff 0xff [1, 2, 3]).2.1 (by decide)⟩

/-! ## Facts about `writeARP` -/

theorem writeARPLoop_arp (w : World) (eth : Ethernet) (arp : ARP) (x : List Byte)
    (cs : List IP4) (trace : List Event) :
    writeARPLoop w eth { arp with DstProtAddress := x } cs trace =
      writeARPLoop w eth arp cs trace := by
  cases cs with
  | nil => rfl
  | cons c cs => rfl

theorem writeARPLoop_prefix (w : World) (eth : Ethernet) (arp : ARP) :
    ∀ (cs : List IP4) (trace : List Event),
    ∃ k, k ≤ cs.length ∧
      (writeARPLoop w eth arp cs trace).1 = trace ++ (cs.take k).map
        (fun c => Event.writePacketData ⟨eth, { arp with DstProtAddress := c.bytes }⟩) ∧
      ((writeARPLoop w eth arp cs trace).2 = none → k = cs.length) := by
  intro cs
  induction cs with
  | nil => intro trace; exact ⟨0, Nat.le_refl _, by simp [writeARPLoop], fun _ => rfl⟩
  | cons c cs ih =>
    intro trace
    simp only [writeARPLoop]
    cases hw : w.writePacketData trace ⟨eth, { arp with DstProtAddress := c.bytes }⟩ with
    | some err => exact ⟨1, by simp, by simp, by simp⟩
    | none =>
      simp only [writeARPLoop_arp]
      obtain ⟨k, hk, h1, h2⟩ := ih (trace ++
        [Event.writePacketData ⟨eth, { arp with DstProtAddress := c.bytes }⟩])
      refine ⟨k + 1, by simpa using hk, ?_, ?_⟩
      · rw [h1]
        simp
      · intro hn
        simp [h2 hn]

theorem writeARPLoop_ok (w : World) (eth : Ethernet) (arp : ARP) :
    ∀ (cs : List IP4) (trace : List Event),
    (∀ j c, cs[j]? = some c →
      w.writePacketData (trace ++ (cs.take j).map
        (fun c => Event.writePacketData ⟨eth, { arp with DstProtAddress := c.bytes }⟩))
        ⟨eth, { arp with DstProtAddress := c.bytes }⟩ = none) →
    writeARPLoop w eth arp cs trace = (trace ++ cs.map
      (fun c => Event.writePacketData ⟨eth, { arp with DstProtAddress := c.bytes }⟩), none) := by
  intro cs
  induction cs with
  | nil => intro trace _; simp [writeARPLoop]
  | cons c cs ih =>
    intro trace h
    have h0 := h 0 c (List.getElem?_cons_zero)
    simp only [List.take_zero, List.map_nil, List.append_nil] at h0
    simp only [writeARPLoop, h0, writeARPLoop_arp]
    rw [ih]
    · simp
    · intro j c' hj
      have := h (j + 1) c' (by simpa using hj)
      simpa using this

theorem writeARPLoop_fail (w : World) (eth : Ethernet) (arp : ARP) :
    ∀ (cs : List IP4) (trace : List Event) (k : Nat) (c : IP4) (err : String),
    cs[k]? = some c →
    (∀ j c', j < k → cs[j]? = some c' →
      w.writePacketData (trace ++ (cs.take j).map
        (fun c => Event.writePacketData ⟨eth, { arp with DstProtAddress := c.bytes }⟩))
        ⟨eth, { arp with DstProtAddress := c'.bytes }⟩ = none) →
    w.writePacketData (trace ++ (cs.take k).map
        (fun c => Event.writePacketData ⟨eth, { arp with DstProtAddress := c.bytes }⟩))
        ⟨eth, { arp with DstProtAddress := c.bytes }⟩ = some err →
    writeARPLoop w eth arp cs trace = (trace ++ (cs.take (k + 1)).map
      (fun c => Event.writePacketData ⟨eth, { arp with DstProtAddress := c.bytes }⟩),
      some err) := by
  intro cs
  induction cs with
  | nil => intro trace k c err hk; simp at hk
  | cons c0 cs ih =>
    intro trace k c err hk hbefore hfail
    cases k with
    | zero =>
      simp only [List.getElem?_cons_zero, Option.some.injEq] at hk
      subst hk
      simp only [List.take_zero, List.map_nil, List.append_nil] at hfail
      simp [writeARPLoop, hfail]
    | succ k =>
      have h0 := hbefore 0 c0 (Nat.succ_pos k) (List.getElem?_cons_zero)
      simp only [List.take_zero, List.map_nil, List.append_nil] at h0
      simp only [writeARPLoop, h0, writeARPLoop_arp]
      rw [ih _ k c err (by simpa using hk)]
      · simp
      · intro j c' hj hc'
        have := hbefore (j + 1) c' (by omega) (by simpa using hc')
        simpa using this
      · simpa using hfail

/-- C7. The events `writeARP` adds to the trace are writes of one frame per candidate of
`ips addr`, in order (all of them when no write fails), and the frame for candidate `c` has
Ethernet destination ff:ff:ff:ff:ff:ff, Ethernet source `H`, ARP operation request, sender
hardware address `H`, sender protocol address `A`, target hardware address 00:00:00:00:00:00
and target protocol address `c`; e.g. the frame for 10.0.0.5 has target protocol address
10.0.0.5. -/
theorem writeARP_probe_frames (w : World) (iface : Interface) (addr : IPNet)
    (trace : List Event) :
    (∃ k, k ≤ (ips addr).length ∧
      (writeARP w iface addr trace).1 = trace ++ ((ips addr).take k).map
        (fun c => Event.writePacketData
          ⟨ethLayer iface, { arpLayer iface addr with DstProtAddress := c.bytes }⟩) ∧
      ((writeARP w iface addr trace).2 = none → k = (ips addr).length)) ∧
    (∀ c : IP4,
      (ethLayer iface).DstMAC = [0xff, 0xff, 0xff, 0xff, 0xff, 0xff] ∧
      (ethLayer iface).SrcMAC = iface.HardwareAddr ∧
      ({ arpLayer iface addr with DstProtAddress := c.bytes } : ARP).Operation = ARPRequest ∧
      ({ arpLayer iface addr with DstProtAddress := c.bytes } : ARP).SourceHwAddress
        = iface.HardwareAddr ∧
      ({ arpLayer iface addr with DstProtAddress := c.bytes } : ARP).SourceProtAddress
        = [addr.IP.b0, addr.IP.b1, addr.IP.b2, addr.IP.b3] ∧
      ({ arpLayer iface addr with DstProtAddress := c.bytes } : ARP).DstHwAddress
        = [0, 0, 0, 0, 0, 0] ∧
      ({ arpLayer iface addr with DstProtAddress := c.bytes } : ARP).DstProtAddress
        = [c.b0, c.b1, c.b2, c.b3]) ∧
    ((∀ t f, w.writePacketData t f = none) →
      Event.writePacketData
        { eth := { SrcMAC := iface.HardwareAddr
                   DstMAC := [0xff, 0xff, 0xff, 0xff, 0xff, 0xff]
                   EthernetType := EthernetTypeARP }
          arp := { AddrType := LinkTypeEthernet
                   Protocol := EthernetTypeIPv4
                   HwAddressSize := 6
                   ProtAddressSize := 4
                   Operation := ARPRequest
                   SourceHwAddress := iface.HardwareAddr
                   SourceProtAddress := [10, 0, 0, 1]
                   DstHwAddress := [0, 0, 0, 0, 0, 0]
                   DstProtAddress := [10, 0, 0, 5] } }
        ∈ (writeARP w iface ⟨⟨10, 0, 0, 1⟩, ⟨255, 255, 255, 248⟩⟩ trace).1) := by
  refine ⟨?_, ?_, ?_⟩
  · exact writeARPLoop_prefix w (ethLayer iface) (arpLayer iface addr) (ips addr) trace
  · intro c
    exact ⟨rfl, rfl, rfl, rfl, rfl, rfl, rfl⟩
  · intro hw
    have h := writeARPLoop_ok w (ethLayer iface)
      (arpLayer iface ⟨⟨10, 0, 0, 1⟩, ⟨255, 255, 255, 248⟩⟩)
      (ips ⟨⟨10, 0, 0, 1⟩, ⟨255, 255, 255, 248⟩⟩) trace (fun _ _ _ => hw _ _)
    simp only [writeARP, h]
    apply List.mem_append_right
    apply List.mem_map.mpr
    refine ⟨⟨10, 0, 0, 5⟩, ?_, rfl⟩
    rw [mem_ips_iff]
    exact ⟨5, by decide, by decide⟩

/-! ## Facts about `scan` -/

theorem scanLoop_write_error (w : World) (cfg : Config) (iface : Interface) (addr : IPNet)
    (cycles : Nat) (s : State) (trace : List Event) (err : String)
    (h : writeARP w iface addr s.trace = (trace, some err)) :
    scanLoop w cfg iface addr (cycles + 1) s =
      ({ current := { Addresses := [], Time := w.now s.trace }, history := s.history,
         trace := trace }, some (.error err)) := by
  simp only [scanLoop, scanCycle, h]

theorem scan_enters_loop (w : World) (cfg : Config) (iface : Interface) (cycles : Nat)
    (s : State) (addrs : List IfAddr) (addr : IPNet)
    (haddrs : iface.Addrs = .ok addrs) (hfind : findAddr addrs = .ok (some addr))
    (hlo : addr.IP.b0 ≠ 127) (h0 : addr.Mask.b0 = 0xff) (h1 : addr.Mask.b1 = 0xff)
    (hopen : w.openLive (s.trace ++ [.openLive iface.Name]) iface.Name = none)
    (s' : State) (err : String)
    (hloop : scanLoop w cfg iface addr cycles
      { s with trace := s.trace ++ [.openLive iface.Name] ++ [.goReadARP] }
        = (s', some (.error err))) :
    scan w cfg iface cycles s =
      ({ s' with trace := s'.trace ++ [.closeStop, .closeHandle] }, some (.error err)) := by
  simp only [scan, haddrs, hfind, if_neg hlo, h0, h1, ne_eq, not_true_eq_false, or_self,
    if_false, hopen, hloop]

/-- C8. With the write of the capture handle as a function that succeeds or fails per call:
if every write succeeds, `writeARP` writes one frame per candidate of `ips addr`, in list
order, and returns no error; if the write for candidate number `k` is the first to fail,
`writeARP` performs exactly the `k + 1` writes for candidates `0..k`, none for a later one, and
returns that error; the loop of `scan` then ends with that error, the history as it was and no
deduplication event in the trace, and `scan` returns it to its caller. -/
theorem writeARP_first_failure (w : World) (cfg : Config) (iface : Interface) (addr : IPNet)
    (s : State) (cycles : Nat) :
    ((∀ (j : Nat) (c : IP4), (ips addr)[j]? = some c →
        w.writePacketData (s.trace ++ ((ips addr).take j).map
          (fun c => Event.writePacketData
            ⟨ethLayer iface, { arpLayer iface addr with DstProtAddress := c.bytes }⟩))
          ⟨ethLayer iface, { arpLayer iface addr with DstProtAddress := c.bytes }⟩ = none) →
      writeARP w iface addr s.trace = (s.trace ++ (ips addr).map
        (fun c => Event.writePacketData
          ⟨ethLayer iface, { arpLayer iface addr with DstProtAddress := c.bytes }⟩), none)) ∧
    (∀ (k : Nat) (c : IP4) (err : String), (ips addr)[k]? = some c →
      (∀ (j : Nat) (c' : IP4), j < k → (ips addr)[j]? = some c' →
        w.writePacketData (s.trace ++ ((ips addr).take j).map
          (fun c => Event.writePacketData
            ⟨ethLayer iface, { arpLayer iface addr with DstProtAddress := c.bytes }⟩))
          ⟨ethLayer iface, { arpLayer iface addr with DstProtAddress := c'.bytes }⟩ = none) →
      w.writePacketData (s.trace ++ ((ips addr).take k).map
          (fun c => Event.writePacketData
            ⟨ethLayer iface, { arpLayer iface addr with DstProtAddress := c.bytes }⟩))
          ⟨ethLayer iface, { arpLayer iface addr with DstProtAddress := c.bytes }⟩ = some err →
      writeARP w iface addr s.trace = (s.trace ++ ((ips addr).take (k + 1)).map
        (fun c => Event.writePacketData
          ⟨ethLayer iface, { arpLayer iface addr with DstProtAddress := c.bytes }⟩), some err) ∧
      scanLoop w cfg iface addr (cycles + 1) s =
        ({ current := { Addresses := [], Time := w.now s.trace }
           history := s.history
           trace := s.trace ++ ((ips addr).take (k + 1)).map
            (fun c => Event.writePacketData
              ⟨ethLayer iface, { arpLayer iface addr with DstProtAddress := c.bytes }⟩) },
         some (.error err)) ∧
      Event.deduplicate ∉ ((ips addr).take (k + 1)).map
        (fun c => Event.writePacketData
          ⟨ethLayer iface, { arpLayer iface addr with DstProtAddress := c.bytes }⟩) ∧
      (∀ n : Network, Event.appendHistory n ∉ ((ips addr).take (k + 1)).map
        (fun c => Event.writePacketData
          ⟨ethLayer iface, { arpLayer iface addr with DstProtAddress := c.bytes }⟩))) ∧
    (∀ (s0 s' : State) (addrs : List IfAddr) (err : String),
      iface.Addrs = .ok addrs → findAddr addrs = .ok (some addr) →
      addr.IP.b0 ≠ 127 → addr.Mask.b0 = 0xff → addr.Mask.b1 = 0xff →
      w.openLive (s0.trace ++ [.openLive iface.Name]) iface.Name = none →
      scanLoop w cfg iface addr cycles
        { s0 with trace := s0.trace ++ [.openLive iface.Name] ++ [.goReadARP] }
          = (s', some (.error err)) →
      scan w cfg iface cycles s0 =
        ({ s' with trace := s'.trace ++ [.closeStop, .closeHandle] }, some (.error err))) := by
  refine ⟨?_, ?_, ?_⟩
  · intro h
    exact writeARPLoop_ok w (ethLayer iface) (arpLayer iface addr) (ips addr) s.trace h
  · intro k c err hk hbefore hfail
    have hw : writeARP w iface addr s.trace = (s.trace ++ ((ips addr).take (k + 1)).map
        (fun c => Event.writePacketData
          ⟨ethLayer iface, { arpLayer iface addr with DstProtAddress := c.bytes }⟩), some err) :=
      writeARPLoop_fail w (ethLayer iface) (arpLayer iface addr) (ips addr) s.trace k c err hk
        hbefore hfail
    refine ⟨hw, scanLoop_write_error w cfg iface addr cycles s _ err hw, ?_, ?_⟩
    · intro hmem
      obtain ⟨_, _, hc⟩ := List.mem_map.mp hmem
      cases hc
    · intro n hmem
      obtain ⟨_, _, hc⟩ := List.mem_map.mp hmem
      cases hc
  · intro s0 s' addrs err haddrs hfind hlo h0 h1 hopen hloop
    exact scan_enters_loop w cfg iface cycles s0 addrs addr haddrs hfind hlo h0 h1 hopen s' err
      hloop

theorem writeARP_first_failure_witness :
    (ips ⟨⟨10, 0, 0, 1⟩, ⟨255, 255, 255, 252⟩⟩)[0]? = some ⟨10, 0, 0, 0⟩ ∧
    (scanLoop brokenHandleWorld ⟨10, []⟩ ⟨"eth0", [2, 0, 0, 0, 0, 1], .ok []⟩
      ⟨⟨10, 0, 0, 1⟩, ⟨255, 255, 255, 252⟩⟩ 1 initialState).2
        = some (.error "send: Network is down") ∧
    (scanLoop brokenHandleWorld ⟨10, []⟩ ⟨"eth0", [2, 0, 0, 0, 0, 1], .ok []⟩
      ⟨⟨10, 0, 0, 1⟩, ⟨255, 255, 255, 252⟩⟩ 1 initialState).1.history = [] :=
  ⟨(ips_getElem? ⟨⟨10, 0, 0, 1⟩, ⟨255, 255, 255, 252⟩⟩ 0 (by decide)).trans (by decide),
   congrArg Prod.snd
    ((writeARP_first_failure brokenHandleWorld ⟨10, []⟩ ⟨"eth0", [2, 0, 0, 0, 0, 1], .ok []⟩
      ⟨⟨10, 0, 0, 1⟩, ⟨255, 255, 255, 252⟩⟩ initialState 0).2.1 0 ⟨10, 0, 0, 0⟩
      "send: Network is down"
      ((ips_getElem? ⟨⟨10, 0, 0, 1⟩, ⟨255, 255, 255, 252⟩⟩ 0 (by decide)).trans (by decide))
      (fun j _ hj => absurd hj (Nat.not_lt_zero j)) rfl).2.1,
   congrArg (fun r => r.1.history)
    ((writeARP_first_failure brokenHandleWorld ⟨10, []⟩ ⟨"eth0", [2, 0, 0, 0, 0, 1], .ok []⟩
      ⟨⟨10, 0, 0, 1⟩, ⟨255, 255, 255, 252⟩⟩ initialState 0).2.1 0 ⟨10, 0, 0, 0⟩
      "send: Network is down"
      ((ips_getElem? ⟨⟨10, 0, 0, 1⟩, ⟨255, 255, 255, 252⟩⟩ 0 (by decide)).trans (by decide))
      (fun j _ hj => absurd hj (Nat.not_lt_zero j)) rfl).2.1⟩

/-- C1, as the claim states it, fails for the loopback interface: 127.0.0.1 with mask
255.0.0.0 (prefix length 8) is rejected with "skipping localhost", not with the range
error. -/
theorem scan_loopback_short_mask :
    IsPrefixMask ⟨255, 0, 0, 0⟩ 8 ∧
    findAddr [.ipNet [127, 0, 0, 1] [255, 0, 0, 0]]
      = .ok (some ⟨⟨127, 0, 0, 1⟩, ⟨255, 0, 0, 0⟩⟩) ∧
    scan quietWorld ⟨10, []⟩ ⟨"lo", [], .ok [.ipNet [127, 0, 0, 1] [255, 0, 0, 0]]⟩ 1
      initialState = (initialState, some (.error "skipping localhost")) ∧
    scan quietWorld ⟨10, []⟩ ⟨"lo", [], .ok [.ipNet [127, 0, 0, 1] [255, 0, 0, 0]]⟩ 1
      initialState ≠ (initialState, some (.error "mask means network is too large")) := by
  refine ⟨by decide, rfl, rfl, ?_⟩
  intro h
  have h2 := congrArg Prod.snd h
  exact absurd h2 (by decide)

theorem short_prefix_mask_fails_check (mask : IP4) (p : Nat) (hmask : IsPrefixMask mask p)
    (hp : p < 16) : mask.b0 ≠ 0xff ∨ mask.b1 ≠ 0xff := by
  obtain ⟨_, hm⟩ := hmask
  rw [bigEndianUint32_eq] at hm
  have h17 : 2 ^ 17 ≤ 2 ^ (32 - p) := Nat.pow_le_pow_right (by decide) (by omega)
  have h32 : 2 ^ (32 - p) ≤ 2 ^ 32 := Nat.pow_le_pow_right (by decide) (by omega)
  have m2 := mask.b2.isLt
  have m3 := mask.b3.isLt
  by_contra hc
  simp only [not_or, not_not] at hc
  have v0 : mask.b0.val = 255 := by rw [hc.1]; rfl
  have v1 : mask.b1.val = 255 := by rw [hc.2]; rfl
  rw [v0, v1] at hm
  generalize 2 ^ (32 - p) = x at hm h17 h32
  omega

/-- C1, amended. For every interface IPv4 configuration whose mask is contiguous with prefix
length below 16, `scan` returns before it opens a pcap handle or writes a probe (the state,
trace included, is as it was): with "mask means network is too large" when the first address
octet is not 127, with "skipping localhost" when it is. -/
theorem scan_rejects_short_mask (w : World) (cfg : Config) (iface : Interface) (cycles : Nat)
    (s : State) (addrs : List IfAddr) (addr : IPNet) (p : Nat)
    (haddrs : iface.Addrs = .ok addrs) (hfind : findAddr addrs = .ok (some addr))
    (hmask : IsPrefixMask addr.Mask p) (hp : p < 16) :
    (addr.IP.b0 ≠ 127 →
      scan w cfg iface cycles s = (s, some (.error "mask means network is too large"))) ∧
    (addr.IP.b0 = 127 →
      scan w cfg iface cycles s = (s, some (.error "skipping localhost"))) ∧
    (scan w cfg iface cycles s).1.trace = s.trace := by
  have hcheck := short_prefix_mask_fails_check addr.Mask p hmask hp
  have h1 : addr.IP.b0 ≠ 127 →
      scan w cfg iface cycles s = (s, some (.error "mask means network is too large")) := by
    intro hlo
    simp only [scan, haddrs, hfind, if_neg hlo, ne_eq]
    rw [if_pos hcheck]
  have h2 : addr.IP.b0 = 127 →
      scan w cfg iface cycles s = (s, some (.error "skipping localhost")) := by
    intro hlo
    simp only [scan, haddrs, hfind, if_pos hlo]
  refine ⟨h1, h2, ?_⟩
  by_cases hlo : addr.IP.b0 = 127
  · rw [h2 hlo]
  · rw [h1 hlo]

theorem scan_rejects_short_mask_witness :
    IsPrefixMask ⟨255, 0, 0, 0⟩ 8 ∧
    scan quietWorld ⟨10, []⟩ ⟨"eth0", [2, 0, 0, 0, 0, 1], .ok [.other, .ipNet [10, 1, 2, 3] [255, 0, 0, 0]]⟩
      5 initialState = (initialState, some (.error "mask means network is too large")) :=
  ⟨by decide,
   (scan_rejects_short_mask quietWorld ⟨10, []⟩
      ⟨"eth0", [2, 0, 0, 0, 0, 1], .ok [.other, .ipNet [10, 1, 2, 3] [255, 0, 0, 0]]⟩ 5
      initialState [.other, .ipNet [10, 1, 2, 3] [255, 0, 0, 0]] ⟨⟨10, 1, 2, 3⟩, ⟨255, 0, 0, 0⟩⟩ 8
      rfl rfl (by decide) (by decide)).1 (by decide)⟩

/-! ## Facts about `readVendors` -/

theorem splitN2_of_space (l : String) (h : ' ' ∈ l.data) :
    splitN2 l = [⟨l.data.takeWhile (fun c => c != ' ')⟩,
                 ⟨(l.data.dropWhile (fun c => c != ' ')).tail⟩] := by
  have hd : l.data.dropWhile (fun c => c != ' ') ≠ [] := by
    intro hnil
    rw [List.dropWhile_eq_nil_iff] at hnil
    have := hnil ' ' h
    simp at this
  simp only [splitN2, List.span_eq_take_drop]
  cases hc : l.data.dropWhile (fun c => c != ' ') with
  | nil => exact absurd hc hd
  | cons c cs => simp

theorem readVendorsLoop_eq (lines : List String) (hsep : ∀ l ∈ lines, ' ' ∈ l.data) :
    ∀ vendors : List VendorRecord,
    readVendorsLoop lines vendors = .ok (vendors ++ lines.map (fun l =>
      { MACPrefix := trimSpace ⟨l.data.takeWhile (fun c => c != ' ')⟩
        Vendor := trimSpace ⟨(l.data.dropWhile (fun c => c != ' ')).tail⟩ })) := by
  induction lines with
  | nil => intro vendors; simp [readVendorsLoop]
  | cons l rest ih =>
    intro vendors
    have hl := splitN2_of_space l (hsep l (List.mem_cons_self _ _))
    simp only [readVendorsLoop, hl, index, List.get?_cons_zero, List.get?_cons_succ]
    rw [ih (fun l' hl' => hsep l' (List.mem_cons_of_mem _ hl'))]
    simp

/-- C6, as the claim states it, fails: a vendor file whose two lines are in descending order
of prefix gives a table in that same order, which is not sorted. -/
theorem readVendors_descending_file :
    readVendors (fun _ => .ok ["000002 B", "000001 A"]) "vendors"
      = .ok [⟨"000002", "B"⟩, ⟨"000001", "A"⟩] ∧
    ¬ VendorsSorted [⟨"000002", "B"⟩, ⟨"000001", "A"⟩] :=
  ⟨rfl, by decide⟩

/-- C6, amended. For every vendor file that opens and whose lines each hold a space,
`readVendors` returns one record per line, in file order, with the trimmed text before the
first space as prefix and the trimmed text after it as vendor name; nothing is sorted, so the
table is sorted ascending by prefix value exactly when the lines of the file already are. -/
theorem readVendors_file_order (fs : String → Except String (List String)) (file : String)
    (lines : List String) (hopen : fs file = .ok lines) (hsep : ∀ l ∈ lines, ' ' ∈ l.data) :
    readVendors fs file = .ok (lines.map (fun l =>
      { MACPrefix := trimSpace ⟨l.data.takeWhile (fun c => c != ' ')⟩
        Vendor := trimSpace ⟨(l.data.dropWhile (fun c => c != ' ')).tail⟩ })) ∧
    (VendorsSorted (lines.map (fun l =>
      { MACPrefix := trimSpace ⟨l.data.takeWhile (fun c => c != ' ')⟩
        Vendor := trimSpace ⟨(l.data.dropWhile (fun c => c != ' ')).tail⟩ })) ↔
     List.Pairwise (fun a b => a ≤ b) (lines.map (fun l =>
      (parseUint (trimSpace ⟨l.data.takeWhile (fun c => c != ' ')⟩)).1))) := by
  constructor
  · simp only [readVendors, hopen]
    rw [readVendorsLoop_eq lines hsep []]
    simp
  · simp only [VendorsSorted, List.map_map]
    exact Iff.rfl

theorem readVendors_file_order_witness :
    (∀ l ∈ ["00000C Cisco Systems", "ACDE48   Private"], ' ' ∈ l.data) ∧
    readVendors (fun _ => .ok ["00000C Cisco Systems", "ACDE48   Private"]) "vendors"
      = .ok [⟨"00000C", "Cisco Systems"⟩, ⟨"ACDE48", "Private"⟩] :=
  ⟨by decide,
   (readVendors_file_order (fun _ => .ok ["00000C Cisco Systems", "ACDE48   Private"]) "vendors"
      ["00000C Cisco Systems", "ACDE48   Private"] rfl (by decide)).1.trans rfl⟩

/-! ## The defect in the vendor resolution of `readARP` -/

/-- C5 fails on the code: for a sender hardware address of two octets (or none) the vendor
resolution of `readARP` stops with an index-out-of-range panic at `splitted[2]`
(`splitted[1]`), whatever the vendor table; the packet handler fails with it. A prefix text
that does not parse does give the empty vendor name. -/
theorem resolveVendor_short_address (vendors : List VendorRecord) :
    resolveVendor vendors [0xaa, 0xbb] = .error (.runtimePanic "index out of range") ∧
    resolveVendor vendors [] = .error (.runtimePanic "index out of range") ∧
    (∀ (w : World) (arp : ARP) (current : Network),
      readARPPacket w vendors (some { arp with SourceHwAddress := [0xaa, 0xbb] }) current
        = .error (.runtimePanic "index out of range")) ∧
    (∀ (macPrefix : String) (n : Nat) (err : String),
      parseUint macPrefix = (n, some err) → lookupVendor vendors macPrefix = .ok "") := by
  have h2 : resolveVendor vendors [0xaa, 0xbb] = .error (.runtimePanic "index out of range") := by
    have : macPrefixOf (hardwareAddrString [0xaa, 0xbb])
        = .error (.runtimePanic "index out of range") := rfl
    simp only [resolveVendor, this]
  have h0 : resolveVendor vendors [] = .error (.runtimePanic "index out of range") := by
    have : macPrefixOf (hardwareAddrString [])
        = .error (.runtimePanic "index out of range") := rfl
    simp only [resolveVendor, this]
  refine ⟨h2, h0, ?_, ?_⟩
  · intro w arp current
    simp only [readARPPacket, h2]
  · intro macPrefix n err hparse
    simp only [lookupVendor, hparse]
    simp

end Arper
